import Mathlib

/-!
# Driver scheduling optimisation (`src/index.js`)

A shallow embedding of the greedy driver scheduler of `src/index.js`, and the
properties of it that the specification states.

## Modelling conventions

* JavaScript numbers are exact rationals (`ℚ`); the initial `null`, `Infinity`,
  `null` of `bestDriver`, `bestCost`, `bestStartLocation` is `none` in an
  `Option BestChoice`.
* A coordinate array `[x, y]` is a pair of rationals.  The cache key
  `${a.join(",")};${b.join(",")}` determines the ordered pair of coordinate
  arrays and is determined by it, so a key is that ordered pair.
* A well-formed ISO date string `YYYY-MM-DD` is its day number since
  1970-01-01 (`isoDate`): string equality of two such dates is equality of day
  numbers, `new Date(s)` is `86400000` times the day number, and
  `new Date(s).toISOString().split("T")[0]` is `s` again.
* A well-formed time string `HH:MM` is the pair of its two numbers.
* The module variables `distanceCache`, `APICALLS` and `unAssignedRides` are the
  fields of `Globals`, threaded through every function that touches them.
  `fetchCalls` is a ghost counter of the invocations of `fetchDistanceDuration`;
  no definition reads it.
* The routing service is a parameter: `Env.fetch n a b` is the answer to the
  request for the segment `a → b` when `n` requests were made before, `none` for
  a response that is not `ok`, and otherwise the first route of the body.
* `calculateDistance` (haversine, transcendental floating point) is a parameter
  of the model, `Env.calculateDistance`.
* Reading a property of `null` or `undefined` throws a `TypeError`; functions
  that can throw return an `Except JsError _` next to the globals they leave.
* `console.log`, the one second pause of `calculateRideCost` and the cache file
  written by `saveCache` are not part of the model.
-/

namespace DriverScheduling

/-! ## Data model -/

/-- A coordinate array of two numbers. -/
abbrev Coords := ℚ × ℚ

/-- A calendar date, as its day number since 1970-01-01. -/
abbrev Date := Int

/-- Day number of the ISO date with year `y`, month `m`, day `d`. -/
def isoDate (y m d : Int) : Date :=
  let y1 := if m ≤ 2 then y - 1 else y
  let era := y1 / 400
  let yoe := y1 - era * 400
  let mp := (m + 9) % 12
  let doy := (153 * mp + 2) / 5 + d - 1
  let doe := yoe * 365 + yoe / 4 - yoe / 100 + doy
  era * 146097 + doe - 719468

/-- Value of `new Date(date)` as a number: milliseconds since the epoch. -/
def dateValue (date : Date) : ℚ := 86400000 * (date : ℚ)

/-- A time of day written `HH:MM`. -/
structure Time where
  hours : Nat
  minutes : Nat
deriving DecidableEq, Repr

/-- A driver record of `drivers.json`. -/
structure Driver where
  driverId : String
  numberOfSeats : Nat
  fuelCost : ℚ
  city_coords : Coords
deriving DecidableEq

/-- A ride record of `rides.json`. -/
structure Ride where
  _id : String
  date : Date
  startTime : Time
  endTime : Time
  startPoint_coords : Coords
  endPoint_coords : Coords
  numberOfSeats : Nat
deriving DecidableEq

/-- One availability window of a driver. -/
structure Window where
  date : Date
  start : Time
  «end» : Time
deriving DecidableEq

/-- One record of the table `driversAvilability`. -/
structure DriverAvailability where
  driverId : String
  availability : List Window
deriving DecidableEq

/-- The table `driversAvilability` of the source. -/
def driversAvilability : List DriverAvailability :=
  [ { driverId := "driver1",
      availability :=
        [ { date := isoDate 2025 3 10, start := ⟨8, 0⟩, «end» := ⟨18, 0⟩ },
          { date := isoDate 2025 3 11, start := ⟨9, 0⟩, «end» := ⟨17, 0⟩ } ] },
    { driverId := "driver2",
      availability :=
        [ { date := isoDate 2025 3 10, start := ⟨7, 0⟩, «end» := ⟨19, 0⟩ },
          { date := isoDate 2025 3 11, start := ⟨10, 0⟩, «end» := ⟨16, 0⟩ } ] },
    { driverId := "driver3",
      availability :=
        [ { date := isoDate 2025 3 10, start := ⟨8, 0⟩, «end» := ⟨18, 0⟩ },
          { date := isoDate 2025 3 11, start := ⟨9, 0⟩, «end» := ⟨17, 0⟩ } ] },
    { driverId := "driver4",
      availability :=
        [ { date := isoDate 2025 3 10, start := ⟨8, 0⟩, «end» := ⟨18, 0⟩ },
          { date := isoDate 2025 3 11, start := ⟨9, 0⟩, «end» := ⟨17, 0⟩ } ] } ]

/-- A value of the distance cache: kilometres and hours. -/
structure Entry where
  distance : ℚ
  duration : ℚ
deriving DecidableEq

/-- The first route of a successful response: metres and seconds. -/
structure Route where
  distance : ℚ
  duration : ℚ
deriving DecidableEq

/-- A key of the distance cache: the ordered pair of coordinate arrays that the
key string is built from. -/
abbrev Key := Coords × Coords

/-- The `Map` held in `distanceCache`, as its entries in insertion order. -/
abbrev Cache := List (Key × Entry)

/-- `Map.prototype.get`. -/
def Cache.get (c : Cache) (k : Key) : Option Entry := List.lookup k c

/-- `Map.prototype.has`. -/
def Cache.has (c : Cache) (k : Key) : Bool := (List.lookup k c).isSome

/-- `Map.prototype.set`: an existing key keeps its place and takes the new
value, a new key goes to the end. -/
def Cache.set (c : Cache) (k : Key) (v : Entry) : Cache :=
  if c.has k then c.map (fun p => if p.1 == k then (k, v) else p) else c ++ [(k, v)]

/-- The module variables of the script. -/
structure Globals where
  distanceCache : Cache
  APICALLS : Nat
  unAssignedRides : List String
  fetchCalls : Nat
deriving DecidableEq

/-- What the script takes from outside: the routing service and the haversine
distance. -/
structure Env where
  fetch : Nat → Coords → Coords → Option Route
  calculateDistance : Coords → Coords → ℚ

/-- A thrown JavaScript error. -/
inductive JsError where
  | typeError
deriving DecidableEq, Repr

deriving instance DecidableEq for Except

/-! ## Route metrics and the distance cache -/

/-- `fetchDistanceDuration(cordArr1, cordArr2)`: `none` is the `null` returned
for a response that is not `ok`. -/
def fetchDistanceDuration (env : Env) (cordArr1 cordArr2 : Coords) (g : Globals) :
    Option Entry × Globals :=
  let cordString : Key := (cordArr1, cordArr2)
  let cordString2 : Key := (cordArr2, cordArr1)
  let g0 : Globals := { g with fetchCalls := g.fetchCalls + 1 }
  if g0.distanceCache.has cordString || g0.distanceCache.has cordString2 then
    ((g0.distanceCache.get cordString).orElse fun _ => g0.distanceCache.get cordString2, g0)
  else
    let res := env.fetch g0.APICALLS cordArr1 cordArr2
    let g1 : Globals := { g0 with APICALLS := g0.APICALLS + 1 }
    match res with
    | none => (none, g1)
    | some route =>
      let result : Entry :=
        { distance := route.distance / 1000, duration := route.duration / 3600 }
      (some result, { g1 with distanceCache := g1.distanceCache.set cordString result })

/-! ## Geometry and time -/

/-- `calculateTravelTime(distance, avgSpeed)`. -/
def calculateTravelTime (distance : ℚ) (avgSpeed : ℚ) : ℚ :=
  (distance / avgSpeed) * 60

/-- `parseTimeToMinutes(timeStr)`. -/
def parseTimeToMinutes (timeStr : Time) : ℚ :=
  (timeStr.hours : ℚ) * 60 + (timeStr.minutes : ℚ)

/-! ## Feasibility -/

/-- `canReachRideOnTime(previousRide, nextRide, driverLocation)`; `none` is the
`null` passed for a driver without a previous ride.  Reading `.duration` of a
`null` answer of `fetchDistanceDuration` throws. -/
def canReachRideOnTime (env : Env) (previousRide : Option Ride) (nextRide : Ride)
    (_driverLocation : Coords) (g : Globals) : Except JsError Bool × Globals :=
  match previousRide with
  | none => (.ok true, g)
  | some previousRide =>
    let previousRideEndTime := parseTimeToMinutes previousRide.endTime
    let nextRideStartTime := parseTimeToMinutes nextRide.startTime
    if previousRide.date ≠ nextRide.date then (.ok true, g)
    else if nextRideStartTime ≤ previousRideEndTime then (.ok false, g)
    else
      let potantialDistance :=
        env.calculateDistance previousRide.endPoint_coords nextRide.startPoint_coords
      let potantialTravelTime := calculateTravelTime potantialDistance 50
      if potantialTravelTime + previousRideEndTime > nextRideStartTime then (.ok false, g)
      else
        match fetchDistanceDuration env previousRide.endPoint_coords
            nextRide.startPoint_coords g with
        | (none, g1) => (.error .typeError, g1)
        | (some distanceBetweenRides, g1) =>
          let travelTime := distanceBetweenRides.duration * 60
          (.ok (decide (previousRideEndTime + travelTime + 10 ≤ nextRideStartTime)), g1)

/-- The availability test of `canAssignRideToDriver`, the predicate given to
the inner `find`. -/
def windowFits (ride : Ride) (availability : Window) : Bool :=
  availability.date == ride.date &&
    decide (parseTimeToMinutes ride.startTime ≥ parseTimeToMinutes availability.start) &&
    decide (parseTimeToMinutes ride.endTime ≤ parseTimeToMinutes availability.«end»)

/-- `canAssignRideToDriver(driver, ride, previousRide, startLocation)`.  Reading
`.availability` of the `undefined` that `find` gives for a driver absent from
`driversAvilability` throws. -/
def canAssignRideToDriver (env : Env) (driver : Driver) (ride : Ride)
    (previousRide : Option Ride) (startLocation : Coords) (g : Globals) :
    Except JsError Bool × Globals :=
  if driver.numberOfSeats < ride.numberOfSeats then (.ok false, g)
  else
    match driversAvilability.find? (fun availability =>
        availability.driverId == driver.driverId) with
    | none => (.error .typeError, g)
    | some driverFromAvilability =>
      match driverFromAvilability.availability.find? (windowFits ride) with
      | none => (.ok false, g)
      | some _ =>
        match canReachRideOnTime env previousRide ride startLocation g with
        | (.error e, g1) => (.error e, g1)
        | (.ok canReachOnTime, g1) =>
          if !canReachOnTime then (.ok false, g1) else (.ok true, g1)

/-! ## Cost -/

/-- The hourly cost of a driver, `DRIVERCOST`. -/
def DRIVERCOST : ℚ := 30

/-- The object returned by `calculateRideCost`. -/
structure Cost where
  fuelCost : ℚ
  laborCost : ℚ
  totalCost : ℚ
deriving DecidableEq

/-- `calculateRideCost(driver, ride, startLocation)`: both lookups are made
before `.distance` is read, which throws when an answer is `null`. -/
def calculateRideCost (env : Env) (driver : Driver) (ride : Ride) (startLocation : Coords)
    (g : Globals) : Except JsError Cost × Globals :=
  match fetchDistanceDuration env startLocation ride.startPoint_coords g with
  | (distanceToRideStart, g1) =>
    match fetchDistanceDuration env ride.startPoint_coords ride.endPoint_coords g1 with
    | (rideDistance, g2) =>
      match distanceToRideStart, rideDistance with
      | some distanceToRideStart, some rideDistance =>
        let totalDistance := distanceToRideStart.distance + rideDistance.distance
        let fuelCost := totalDistance * driver.fuelCost
        let travelTimeToRide := distanceToRideStart.duration * 60
        let rideStartTime := parseTimeToMinutes ride.startTime
        let rideEndTime := parseTimeToMinutes ride.endTime
        let rideDuration := rideEndTime - rideStartTime
        let totalTime := travelTimeToRide + rideDuration
        let laborCost := (totalTime / 60) * DRIVERCOST
        (.ok { fuelCost := fuelCost, laborCost := laborCost,
               totalCost := fuelCost + laborCost }, g2)
      | _, _ => (.error .typeError, g2)

/-! ## Sorting -/

/-- The comparator given to `sort` in `sortRidesChronologically`. -/
def compareRides (a b : Ride) : ℚ :=
  if a.date ≠ b.date then dateValue a.date - dateValue b.date
  else parseTimeToMinutes a.startTime - parseTimeToMinutes b.startTime

/-- `sortRidesChronologically(rides)`: `Array.prototype.sort` is stable and puts
`a` before `b` when the comparator is negative; a stable insertion sort on a
copy of the list. -/
def sortRidesChronologically (rides : List Ride) : List Ride :=
  rides.insertionSort (fun a b => compareRides a b ≤ 0)

/-! ## The greedy scheduler -/

/-- An entry of `assignments`. -/
structure Assignment where
  driverId : String
  rideIds : List String
deriving DecidableEq

/-- The object `driverSchedules`: the rides of each driver id. -/
abbrev Schedules := String → List Ride

/-- `driverSchedules[driverId] = value`. -/
def Schedules.set (s : Schedules) (driverId : String) (value : List Ride) : Schedules :=
  fun k => if k = driverId then value else s k

/-- The `forEach` that initialises `driverSchedules`; a key that is never set is
never read, and reads as the empty schedule here. -/
def initSchedules (drivers : List Driver) : Schedules :=
  drivers.foldl (fun s driver => s.set driver.driverId []) (fun _ => [])

/-- The variables `bestDriver`, `bestCost` and `bestStartLocation`, which are
assigned together; the initial `null`, `Infinity`, `null` is `none`. -/
structure BestChoice where
  bestDriver : Driver
  bestCost : ℚ
  bestStartLocation : Coords
deriving DecidableEq

/-- The test `cost.totalCost < bestCost`. -/
def improves (totalCost : ℚ) : Option BestChoice → Bool
  | none => true
  | some best => decide (totalCost < best.bestCost)

/-- The local `previousRide` of the loop over `drivers`: the last ride of the
driver's schedule, `none` for the `null` of an empty schedule. -/
def previousRideOf (driverSchedules : Schedules) (driver : Driver) : Option Ride :=
  let schedule := driverSchedules driver.driverId
  schedule.getLast?

/-- The local `startLocation` of the loop over `drivers`. -/
def startLocationOf (driverSchedules : Schedules) (driver : Driver) : Coords :=
  match previousRideOf driverSchedules driver with
  | some previousRide => previousRide.endPoint_coords
  | none => driver.city_coords

/-- The loop over `drivers` for one ride. -/
def findBestDriver (env : Env) (driverSchedules : Schedules) (ride : Ride) :
    List Driver → Option BestChoice → Globals → Except JsError (Option BestChoice) × Globals
  | [], best, g => (.ok best, g)
  | driver :: rest, best, g =>
    let previousRide := previousRideOf driverSchedules driver
    let startLocation := startLocationOf driverSchedules driver
    match canAssignRideToDriver env driver ride previousRide startLocation g with
    | (.error e, g1) => (.error e, g1)
    | (.ok false, g1) => findBestDriver env driverSchedules ride rest best g1
    | (.ok true, g1) =>
      match calculateRideCost env driver ride startLocation g1 with
      | (.error e, g2) => (.error e, g2)
      | (.ok cost, g2) =>
        if improves cost.totalCost best then
          findBestDriver env driverSchedules ride rest
            (some { bestDriver := driver, bestCost := cost.totalCost,
                    bestStartLocation := startLocation }) g2
        else findBestDriver env driverSchedules ride rest best g2

/-- The statement `assignments[index].rideIds.push(rideId)`. -/
def pushRideId : List Assignment → Nat → String → List Assignment
  | [], _, _ => []
  | ass :: rest, 0, rideId => { ass with rideIds := ass.rideIds ++ [rideId] } :: rest
  | ass :: rest, index + 1, rideId => ass :: pushRideId rest index rideId

/-- The local variables of `optimizeDriverScheduling` that outlive one ride. -/
structure SchedulerState where
  assignments : List Assignment
  totalCost : ℚ
  driverSchedules : Schedules

/-- The second half of the loop body: what is done with the best driver found
for `ride`. -/
def assignRide (ride : Ride) (best : Option BestChoice) (st : SchedulerState) (g : Globals) :
    SchedulerState × Globals :=
  match best with
  | some best =>
    let assignments :=
      match st.assignments.findIdx? (fun ass => ass.driverId == best.bestDriver.driverId) with
      | some index => pushRideId st.assignments index ride._id
      | none => st.assignments ++ [{ driverId := best.bestDriver.driverId, rideIds := [] }]
    ({ assignments := assignments,
       totalCost := st.totalCost + best.bestCost,
       driverSchedules := st.driverSchedules.set best.bestDriver.driverId
         (st.driverSchedules best.bestDriver.driverId ++ [ride]) }, g)
  | none => (st, { g with unAssignedRides := g.unAssignedRides ++ [ride._id] })

/-- Where a run of the scheduler ended: the error thrown, if any, and the local
and module variables at that point. -/
structure Run where
  thrown : Option JsError
  state : SchedulerState
  globals : Globals

/-- The loop over the sorted rides. -/
def scheduleRides (env : Env) (drivers : List Driver) :
    List Ride → SchedulerState → Globals → Run
  | [], st, g => { thrown := none, state := st, globals := g }
  | ride :: rest, st, g =>
    match findBestDriver env st.driverSchedules ride drivers none g with
    | (.error e, g1) => { thrown := some e, state := st, globals := g1 }
    | (.ok best, g1) =>
      match assignRide ride best st g1 with
      | (st1, g2) => scheduleRides env drivers rest st1 g2

/-- The whole body of `optimizeDriverScheduling(drivers, rides)`, with the local
variables it ends with. -/
def runScheduler (env : Env) (drivers : List Driver) (rides : List Ride) (g : Globals) : Run :=
  scheduleRides env drivers (sortRidesChronologically rides)
    { assignments := [], totalCost := 0, driverSchedules := initSchedules drivers } g

/-- The object returned by `optimizeDriverScheduling`. -/
structure Result where
  assignments : List Assignment
  totalCost : ℚ
deriving DecidableEq

/-- `optimizeDriverScheduling(drivers, rides)`: the returned object, or the
error thrown, and the module variables afterwards. -/
def optimizeDriverScheduling (env : Env) (drivers : List Driver) (rides : List Ride)
    (g : Globals) : Except JsError Result × Globals :=
  let run := runScheduler env drivers rides g
  match run.thrown with
  | some e => (.error e, run.globals)
  | none =>
    (.ok { assignments := run.state.assignments, totalCost := run.state.totalCost },
      run.globals)

/-- The final `driverSchedules` of `optimizeDriverScheduling(drivers, rides)`. -/
def finalSchedules (env : Env) (drivers : List Driver) (rides : List Ride) (g : Globals) :
    Schedules :=
  (runScheduler env drivers rides g).state.driverSchedules

/-! ## Vocabulary of the properties -/

/-- What a lookup of the segment from `a` to `b` finds in the cache:
`get(cordString) || get(cordString2)`. -/
def Cache.segment (c : Cache) (a b : Coords) : Option Entry :=
  (c.get (a, b)).orElse fun _ => c.get (b, a)

/-- No segment between two different points is stored under both of its keys. -/
def Cache.OneSided (c : Cache) : Prop :=
  ∀ a b : Coords, a ≠ b → ¬ (c.has (a, b) = true ∧ c.has (b, a) = true)

/-- What the reachability check has established when it lets `next` follow
`prev` on a schedule, with the cache `c`: for two rides of the same date, `next`
starts after `prev` ends, and the entry of the cache for the segment between
them leaves the ten minutes of buffer. -/
def Reachable (c : Cache) (prev next : Ride) : Prop :=
  prev.date = next.date →
    parseTimeToMinutes prev.endTime < parseTimeToMinutes next.startTime ∧
    ∃ d, c.segment prev.endPoint_coords next.startPoint_coords = some d ∧
      parseTimeToMinutes prev.endTime + 60 * d.duration + 10 ≤
        parseTimeToMinutes next.startTime

/-- How the module variables `g` may have changed into `g1` by route lookups:
the request counter does not go down, the cache is the same when the counter
is, every segment found before is found with the same entry, and nothing is
taken off the unassigned list. -/
structure Globals.Grows (g g1 : Globals) : Prop where
  calls : g.APICALLS ≤ g1.APICALLS
  cache : g1.APICALLS = g.APICALLS → g1.distanceCache = g.distanceCache
  segment : ∀ a b e, g.distanceCache.segment a b = some e →
    g1.distanceCache.segment a b = some e
  unassigned : ∀ x ∈ g.unAssignedRides, x ∈ g1.unAssignedRides

/-- Two states of the module variables with the same cache and the same request
counter: what the scheduler reads. -/
def Globals.Same (g g1 : Globals) : Prop :=
  g.distanceCache = g1.distanceCache ∧ g.APICALLS = g1.APICALLS

/-- The statement proved of the schedules for C2: every ride on the schedule
kept under a driver id needs no more seats than a driver with that id has. -/
def SeatsFit (drivers : List Driver) (sched : Schedules) : Prop :=
  ∀ driverId : String, ∀ ride ∈ sched driverId,
    ∃ driver ∈ drivers, driver.driverId = driverId ∧ ride.numberOfSeats ≤ driver.numberOfSeats

/-- The invariant proved of the schedules for C3: on every schedule each ride
is reachable from the ride before it, with the cache `c`. -/
def BufferKept (c : Cache) (sched : Schedules) : Prop :=
  ∀ driverId : String, List.Chain' (Reachable c) (sched driverId)

/-- Two rides whose spans `[startTime, endTime)` overlap. -/
def Overlap (a b : Ride) : Prop :=
  parseTimeToMinutes a.startTime < parseTimeToMinutes b.endTime ∧
    parseTimeToMinutes b.startTime < parseTimeToMinutes a.endTime

/-- The invariant proved of a schedule for C4, where `todo` are the rides still
to come: no ride on it is of a later date than a ride to come, its dates do not
go down, a later ride of the same date starts after the earlier one ends, and
each ride ends after it starts. -/
def Orderly (todo : List Ride) (l : List Ride) : Prop :=
  (∀ a ∈ l, ∀ r ∈ todo, a.date ≤ r.date) ∧
  l.Pairwise (fun a b => a.date ≤ b.date) ∧
  l.Pairwise (fun a b =>
    a.date = b.date → parseTimeToMinutes a.endTime < parseTimeToMinutes b.startTime) ∧
  (∀ a ∈ l, parseTimeToMinutes a.startTime < parseTimeToMinutes a.endTime)

/-- Driver `driver` is feasible for `ride` when its turn of the loop over the
drivers starts with the module variables `g`, and its cost is `totalCost`: the
feasibility check returns `true` and the cost computation that follows returns
a cost with that `totalCost`. -/
def FeasibleAt (env : Env) (sched : Schedules) (ride : Ride) (driver : Driver)
    (g : Globals) (totalCost : ℚ) : Prop :=
  ∃ g1 g2 cost,
    canAssignRideToDriver env driver ride (previousRideOf sched driver)
      (startLocationOf sched driver) g = (.ok true, g1) ∧
    calculateRideCost env driver ride (startLocationOf sched driver) g1 = (.ok cost, g2) ∧
    cost.totalCost = totalCost

/-- The invariant proved of the entries of `assignments` for C20: each entry
lists the ride ids of the schedule of its driver id without the first ride, no
two entries have the same driver id, and a driver id has an entry exactly when
its schedule is not empty. -/
def EntriesSkipFirst (st : SchedulerState) : Prop :=
  (∀ a ∈ st.assignments,
    a.rideIds = ((st.driverSchedules a.driverId).tail).map (fun r => r._id)) ∧
  (st.assignments.map (fun a => a.driverId)).Nodup ∧
  (∀ driverId : String,
    (∃ a ∈ st.assignments, a.driverId = driverId) ↔ st.driverSchedules driverId ≠ [])

/-- The invariant proved for the last part of C20, where `todo` are the rides
still to come and `unassigned` the unassigned list: the ids of the rides on the
schedules and the ids on the unassigned list are not ids of rides still to
come, no id is twice on the schedules, and no id on a schedule is on the
unassigned list. -/
def IdsApart (todo : List Ride) (sched : Schedules) (unassigned : List String) : Prop :=
  (∀ driverId : String, ∀ x ∈ sched driverId, x._id ∉ todo.map (fun r => r._id)) ∧
  (∀ u ∈ unassigned, u ∉ todo.map (fun r => r._id)) ∧
  (∀ driverId : String, ((sched driverId).map (fun r => r._id)).Nodup) ∧
  (∀ d1 d2 : String, d1 ≠ d2 → ∀ x ∈ sched d1, ∀ y ∈ sched d2, x._id ≠ y._id) ∧
  (∀ driverId : String, ∀ x ∈ sched driverId, x._id ∉ unassigned)

/-- One assignment of a run: the ride, the choice made for it, and the
schedules and module variables with which the search for its driver started. -/
structure Assigned where
  ride : Ride
  choice : BestChoice
  schedules : Schedules
  globals : Globals

/-- The record of the assignments of the loop over the rides, in order: it
follows `scheduleRides` turn by turn and notes each ride that got a driver; a
ride that got none adds nothing, and a turn that throws ends the record. -/
def assignmentTrace (env : Env) (drivers : List Driver) :
    List Ride → SchedulerState → Globals → List Assigned
  | [], _, _ => []
  | ride :: rest, st, g =>
    match findBestDriver env st.driverSchedules ride drivers none g with
    | (.error _, _) => []
    | (.ok none, g1) =>
      assignmentTrace env drivers rest (assignRide ride none st g1).1
        (assignRide ride none st g1).2
    | (.ok (some best), g1) =>
      { ride := ride, choice := best, schedules := st.driverSchedules, globals := g } ::
        assignmentTrace env drivers rest (assignRide ride (some best) st g1).1
          (assignRide ride (some best) st g1).2

/-- The record of the assignments of `optimizeDriverScheduling(drivers, rides)`. -/
def assignmentsOfRun (env : Env) (drivers : List Driver) (rides : List Ride) (g : Globals) :
    List Assigned :=
  assignmentTrace env drivers (sortRidesChronologically rides)
    { assignments := [], totalCost := 0, driverSchedules := initSchedules drivers } g

/-! ## Sample inputs -/

/-- A cache that holds both keys of one segment, with different entries. -/
def cacheBothKeys : Cache :=
  [(((0, 0), (1, 1)), { distance := 1, duration := 1 }),
   (((1, 1), (0, 0)), { distance := 2, duration := 2 })]

/-- The module variables when the script starts without a cache file. -/
def freshGlobals : Globals :=
  { distanceCache := [], APICALLS := 0, unAssignedRides := [], fetchCalls := 0 }

/-- A routing service that answers every request with a route of 12 km and
half an hour.  The haversine distance of a point to itself is 0, and that is
the only distance the runs below ask for: a ride that follows another on a
schedule starts where the other ends. -/
def envUp : Env :=
  { fetch := fun _ _ _ => some { distance := 12000, duration := 1800 },
    calculateDistance := fun _ _ => 0 }

/-- A routing service whose every response is not `ok`; the runs below with it
never ask for a haversine distance. -/
def envDown : Env :=
  { fetch := fun _ _ _ => none, calculateDistance := fun _ _ => 0 }

/-- A driver of the availability table, with four seats. -/
def driverOne : Driver :=
  { driverId := "driver1", numberOfSeats := 4, fuelCost := 1 / 2, city_coords := (0, 0) }

/-- A driver that the availability table does not list. -/
def driverFive : Driver :=
  { driverId := "driver5", numberOfSeats := 4, fuelCost := 1 / 2, city_coords := (0, 0) }

/-- A ride of two seats on 2025-03-10 from 09:00 to 10:00. -/
def rideMorning : Ride :=
  { _id := "ride1", date := isoDate 2025 3 10, startTime := ⟨9, 0⟩, endTime := ⟨10, 0⟩,
    startPoint_coords := (1, 1), endPoint_coords := (2, 2), numberOfSeats := 2 }

/-- The module variables that a first run on `driverOne` and `rideMorning`
leaves: a cache that holds the two segments that the run looks up. -/
def warmGlobals : Globals :=
  { distanceCache :=
      [(((0, 0), (1, 1)), { distance := 12, duration := 1 / 2 }),
       (((1, 1), (2, 2)), { distance := 12, duration := 1 / 2 })],
    APICALLS := 2, unAssignedRides := [], fetchCalls := 2 }

/-- A routing service that answers every request with a route of 15 km and a
quarter of an hour; the search below with it starts from empty schedules and
never asks for a haversine distance. -/
def envQuarter : Env :=
  { fetch := fun _ _ _ => some { distance := 15000, duration := 900 },
    calculateDistance := fun _ _ => 0 }

/-- A driver whose cost for `rideShort` is 42. -/
def driverDear : Driver :=
  { driverId := "driver1", numberOfSeats := 4, fuelCost := 13 / 20, city_coords := (0, 0) }

/-- A driver whose cost for `rideShort` is 37.5. -/
def driverCheap : Driver :=
  { driverId := "driver2", numberOfSeats := 4, fuelCost := 1 / 2, city_coords := (0, 0) }

/-- A ride of two seats on 2025-03-10 from 09:00 to 09:30. -/
def rideShort : Ride :=
  { _id := "ride3", date := isoDate 2025 3 10, startTime := ⟨9, 0⟩, endTime := ⟨9, 30⟩,
    startPoint_coords := (1, 1), endPoint_coords := (2, 2), numberOfSeats := 2 }

/-- The choice of `driverCheap` at the cost of 37.5. -/
def cheapChoice : BestChoice :=
  { bestDriver := driverCheap, bestCost := 75 / 2, bestStartLocation := (0, 0) }

/-- The module variables after the search of a driver for `rideShort` among
`driverDear` and `driverCheap`, started from `freshGlobals`. -/
def searchedGlobals : Globals :=
  { distanceCache :=
      [(((0, 0), (1, 1)), { distance := 15, duration := 1 / 4 }),
       (((1, 1), (2, 2)), { distance := 15, duration := 1 / 4 })],
    APICALLS := 2, unAssignedRides := [], fetchCalls := 4 }

/-- A ride of two seats on 2025-03-10 from 17:00 to 18:00, the end of the first
window of `driver1`. -/
def rideEvening : Ride :=
  { _id := "ride4", date := isoDate 2025 3 10, startTime := ⟨17, 0⟩, endTime := ⟨18, 0⟩,
    startPoint_coords := (1, 1), endPoint_coords := (2, 2), numberOfSeats := 2 }

/-- A ride of five seats on 2025-03-10 from 09:00 to 10:00. -/
def rideOfFive : Ride :=
  { _id := "ride5", date := isoDate 2025 3 10, startTime := ⟨9, 0⟩, endTime := ⟨10, 0⟩,
    startPoint_coords := (1, 1), endPoint_coords := (2, 2), numberOfSeats := 5 }

/-- A ride of two seats on 2025-03-10 from 12:00 to 13:00, which starts at the
point where `rideMorning` ends. -/
def rideNoon : Ride :=
  { _id := "ride2", date := isoDate 2025 3 10, startTime := ⟨12, 0⟩, endTime := ⟨13, 0⟩,
    startPoint_coords := (2, 2), endPoint_coords := (4, 4), numberOfSeats := 2 }

/-! ## Theorems -/

/-- C1, at a failing input: one driver, one ride that the driver can take and a
routing service that answers.  The ride is put on the driver's schedule and
its cost is counted, but its id is in neither the `rideIds` of the entry created
for the driver nor the unassigned list. -/
theorem first_ride_of_driver_in_neither_list :
    optimizeDriverScheduling envUp [driverOne] [rideMorning] freshGlobals =
      (.ok { assignments := [{ driverId := "driver1", rideIds := [] }], totalCost := 57 },
        { distanceCache :=
            [(((0, 0), (1, 1)), { distance := 12, duration := 1 / 2 }),
             (((1, 1), (2, 2)), { distance := 12, duration := 1 / 2 })],
          APICALLS := 2, unAssignedRides := [], fetchCalls := 2 }) ∧
    finalSchedules envUp [driverOne] [rideMorning] freshGlobals "driver1" = [rideMorning] := by
  constructor <;> decide!

/-- C6, at a failing input: one driver, two rides the driver could take, and a
routing service that fails.  The cost computation of the first ride throws, the
run ends with that error, the first ride is not recorded as unassigned and the
second ride is never looked at (two lookups in all, both for the first ride). -/
theorem provider_failure_aborts_run :
    optimizeDriverScheduling envDown [driverOne] [rideMorning, rideNoon] freshGlobals =
      (.error .typeError,
        { distanceCache := [], APICALLS := 2, unAssignedRides := [], fetchCalls := 2 }) := by
  decide!

/-- C9, at a failing input: a driver with enough seats that has no record in
`driversAvilability`.  The availability check throws, the run ends with that
error and the ride is not recorded as unassigned. -/
theorem driver_without_record_aborts_run :
    optimizeDriverScheduling envUp [driverFive] [rideMorning] freshGlobals =
      (.error .typeError, freshGlobals) := by
  decide!

/-! ### The distance cache -/

theorem Cache.has_eq_true_iff (c : Cache) (k : Key) :
    c.has k = true ↔ ∃ e, c.get k = some e := by
  unfold Cache.has Cache.get
  cases List.lookup k c <;> simp

theorem Cache.has_eq_false_iff (c : Cache) (k : Key) :
    c.has k = false ↔ c.get k = none := by
  unfold Cache.has Cache.get
  cases List.lookup k c <;> simp

theorem Cache.get_append_of_some (c l : Cache) (k : Key) (e : Entry)
    (h : c.get k = some e) : Cache.get (c ++ l) k = some e := by
  unfold Cache.get at *
  induction c with
  | nil => simp at h
  | cons p c ih =>
    obtain ⟨k1, v⟩ := p
    simp only [List.cons_append, List.lookup_cons] at h ⊢
    cases hk : (k == k1) with
    | true => simpa [hk] using h
    | false => rw [hk] at h; exact ih h

theorem Cache.get_append_of_none (c l : Cache) (k : Key)
    (h : c.get k = none) : Cache.get (c ++ l) k = Cache.get l k := by
  unfold Cache.get at *
  induction c with
  | nil => rfl
  | cons p c ih =>
    obtain ⟨k1, v⟩ := p
    simp only [List.cons_append, List.lookup_cons] at h ⊢
    cases hk : (k == k1) with
    | true => simp [hk] at h
    | false => rw [hk] at h; exact ih h

theorem Cache.get_singleton (k k1 : Key) (v : Entry) :
    Cache.get [(k1, v)] k = if k = k1 then some v else none := by
  unfold Cache.get
  by_cases h : k = k1
  · simp [List.lookup_cons, h]
  · have : (k == k1) = false := by simpa using h
    simp [List.lookup_cons, this, h]

theorem Cache.set_of_not_has (c : Cache) (k : Key) (v : Entry) (h : c.has k = false) :
    c.set k v = c ++ [(k, v)] := by
  simp [Cache.set, h]

/-- A lookup that finds the segment in the cache returns what it finds and only
counts the invocation. -/
theorem fetchDistanceDuration_hit (env : Env) (a b : Coords) (g : Globals) (e : Entry)
    (h : g.distanceCache.segment a b = some e) :
    fetchDistanceDuration env a b g = (some e, { g with fetchCalls := g.fetchCalls + 1 }) := by
  have hhit : (g.distanceCache.has (a, b) || g.distanceCache.has (b, a)) = true := by
    unfold Cache.segment at h
    cases h1 : g.distanceCache.get (a, b) with
    | some e1 => simp [(Cache.has_eq_true_iff _ _).2 ⟨e1, h1⟩]
    | none =>
      rw [h1] at h
      simp only [Option.orElse] at h
      simp [(Cache.has_eq_true_iff _ _).2 ⟨e, h⟩]
  unfold fetchDistanceDuration
  simp only [hhit, if_true]
  unfold Cache.segment at h
  rw [h]

/-- A segment is found in the cache exactly when one of its keys is there. -/
theorem Cache.segment_eq_none_iff (c : Cache) (a b : Coords) :
    c.segment a b = none ↔ (c.has (a, b) || c.has (b, a)) = false := by
  unfold Cache.segment
  cases h1 : c.get (a, b) with
  | some e1 => simp [(Cache.has_eq_true_iff _ _).2 ⟨e1, h1⟩, Option.orElse]
  | none =>
    simp only [Option.orElse, (Cache.has_eq_false_iff _ _).2 h1, Bool.false_or]
    exact (Cache.has_eq_false_iff _ _).symm

/-- A lookup that does not find the segment asks the routing service once; a
response that is not `ok` gives `null` and leaves the cache as it was. -/
theorem fetchDistanceDuration_miss_fail (env : Env) (a b : Coords) (g : Globals)
    (h : g.distanceCache.segment a b = none) (hres : env.fetch g.APICALLS a b = none) :
    fetchDistanceDuration env a b g =
      (none, { g with fetchCalls := g.fetchCalls + 1, APICALLS := g.APICALLS + 1 }) := by
  have hmiss := (Cache.segment_eq_none_iff _ _ _).1 h
  unfold fetchDistanceDuration
  simp [hmiss, hres]

/-- A lookup that does not find the segment and gets a route stores the
converted route at the end of the cache, under the key of the request. -/
theorem fetchDistanceDuration_miss_ok (env : Env) (a b : Coords) (g : Globals) (route : Route)
    (h : g.distanceCache.segment a b = none) (hres : env.fetch g.APICALLS a b = some route) :
    fetchDistanceDuration env a b g =
      (some { distance := route.distance / 1000, duration := route.duration / 3600 },
        { g with
          fetchCalls := g.fetchCalls + 1, APICALLS := g.APICALLS + 1,
          distanceCache := g.distanceCache ++
            [((a, b), { distance := route.distance / 1000,
                        duration := route.duration / 3600 })] }) := by
  have hmiss := (Cache.segment_eq_none_iff _ _ _).1 h
  have hk : g.distanceCache.has (a, b) = false := by
    simp only [Bool.or_eq_false_iff] at hmiss; exact hmiss.1
  unfold fetchDistanceDuration
  simp [hmiss, hres, Cache.set_of_not_has _ _ _ hk]

theorem Globals.Grows.refl (g : Globals) : g.Grows g :=
  ⟨le_refl _, fun _ => rfl, fun _ _ _ h => h, fun _ h => h⟩

theorem Globals.Grows.trans {g g1 g2 : Globals} (h1 : g.Grows g1) (h2 : g1.Grows g2) :
    g.Grows g2 where
  calls := le_trans h1.calls h2.calls
  cache := fun h => by
    have e1 : g1.APICALLS = g.APICALLS := le_antisymm (h ▸ h2.calls) h1.calls
    have e2 : g2.APICALLS = g1.APICALLS := h.trans e1.symm
    rw [h2.cache e2, h1.cache e1]
  segment := fun a b e h => h2.segment a b e (h1.segment a b e h)
  unassigned := fun x h => h2.unassigned x (h1.unassigned x h)

theorem Globals.Same.same_refl (g : Globals) : g.Same g := ⟨rfl, rfl⟩

theorem Globals.Same.symm {g g1 : Globals} (h : g.Same g1) : g1.Same g := ⟨h.1.symm, h.2.symm⟩

/-- Appending the entry of a segment that was not found keeps every segment
that was found. -/
theorem Cache.segment_append_of_miss (c : Cache) (a b : Coords) (v : Entry)
    (hmiss : c.segment a b = none) (x y : Coords) (e : Entry)
    (h : c.segment x y = some e) : Cache.segment (c ++ [((a, b), v)]) x y = some e := by
  unfold Cache.segment at h ⊢
  cases h1 : c.get (x, y) with
  | some e1 =>
    rw [h1] at h
    simp only [Option.orElse] at h
    rw [Cache.get_append_of_some c _ _ e1 h1]
    simpa [Option.orElse] using h
  | none =>
    rw [h1] at h
    simp only [Option.orElse] at h
    rw [Cache.get_append_of_none c _ _ h1, Cache.get_singleton]
    have hne : (x, y) ≠ (a, b) := by
      intro hxy
      have hx : x = a := congrArg Prod.fst hxy
      have hy : y = b := congrArg Prod.snd hxy
      subst hx; subst hy
      have hm := (Cache.segment_eq_none_iff c x y).1 hmiss
      simp only [Bool.or_eq_false_iff] at hm
      rw [(Cache.has_eq_true_iff _ _).2 ⟨e, h⟩] at hm
      exact absurd hm.2 (by simp)
    rw [if_neg hne]
    simp only [Option.orElse]
    exact Cache.get_append_of_some c _ _ e h

/-- The segment just stored is found. -/
theorem Cache.segment_append_self (c : Cache) (a b : Coords) (v : Entry)
    (hmiss : c.segment a b = none) : Cache.segment (c ++ [((a, b), v)]) a b = some v := by
  have hm := (Cache.segment_eq_none_iff c a b).1 hmiss
  simp only [Bool.or_eq_false_iff] at hm
  unfold Cache.segment
  rw [Cache.get_append_of_none c _ _ ((Cache.has_eq_false_iff _ _).1 hm.1), Cache.get_singleton]
  simp [Option.orElse]

/-- The three ways a lookup can go. -/
theorem fetchDistanceDuration_cases (env : Env) (a b : Coords) (g : Globals) :
    (∃ e, g.distanceCache.segment a b = some e ∧
      fetchDistanceDuration env a b g = (some e, { g with fetchCalls := g.fetchCalls + 1 })) ∨
    (g.distanceCache.segment a b = none ∧ env.fetch g.APICALLS a b = none ∧
      fetchDistanceDuration env a b g =
        (none, { g with fetchCalls := g.fetchCalls + 1, APICALLS := g.APICALLS + 1 })) ∨
    (∃ route, g.distanceCache.segment a b = none ∧ env.fetch g.APICALLS a b = some route ∧
      fetchDistanceDuration env a b g =
        (some { distance := route.distance / 1000, duration := route.duration / 3600 },
          { g with
            fetchCalls := g.fetchCalls + 1, APICALLS := g.APICALLS + 1,
            distanceCache := g.distanceCache ++
              [((a, b), { distance := route.distance / 1000,
                          duration := route.duration / 3600 })] })) := by
  cases hs : g.distanceCache.segment a b with
  | some e => exact Or.inl ⟨e, rfl, fetchDistanceDuration_hit env a b g e hs⟩
  | none =>
    cases hr : env.fetch g.APICALLS a b with
    | none => exact Or.inr (Or.inl ⟨rfl, rfl, fetchDistanceDuration_miss_fail env a b g hs hr⟩)
    | some route =>
      exact Or.inr (Or.inr ⟨route, rfl, rfl, fetchDistanceDuration_miss_ok env a b g route hs hr⟩)

theorem fetchDistanceDuration_grows (env : Env) (a b : Coords) (g : Globals) :
    g.Grows (fetchDistanceDuration env a b g).2 := by
  rcases fetchDistanceDuration_cases env a b g with ⟨e, _, h⟩ | ⟨_, _, h⟩ | ⟨route, hs, _, h⟩
  · rw [h]; exact ⟨le_refl _, fun _ => rfl, fun _ _ _ h => h, fun _ h => h⟩
  · rw [h]
    exact ⟨Nat.le_succ _, fun _ => rfl, fun _ _ _ h => h, fun _ h => h⟩
  · rw [h]
    refine ⟨Nat.le_succ _, fun hc => ?_, fun x y e hx => ?_, fun _ h => h⟩
    · exact absurd hc (Nat.succ_ne_self _)
    · exact Cache.segment_append_of_miss _ a b _ hs x y e hx

/-- An entry returned by a lookup is what the cache holds for the segment
afterwards. -/
theorem fetchDistanceDuration_segment (env : Env) (a b : Coords) (g : Globals) (e : Entry)
    (h : (fetchDistanceDuration env a b g).1 = some e) :
    (fetchDistanceDuration env a b g).2.distanceCache.segment a b = some e := by
  rcases fetchDistanceDuration_cases env a b g with ⟨e1, hs, h1⟩ | ⟨_, _, h1⟩ | ⟨route, hs, _, h1⟩
  · rw [h1] at h ⊢
    simp only [Option.some.injEq] at h
    subst h; exact hs
  · rw [h1] at h; cases h
  · rw [h1] at h ⊢
    simp only [Option.some.injEq] at h
    subst h
    exact Cache.segment_append_self _ a b _ hs

/-- A lookup reads only the cache and the request counter. -/
theorem fetchDistanceDuration_same (env : Env) (a b : Coords) (g g1 : Globals)
    (h : g.Same g1) :
    (fetchDistanceDuration env a b g).1 = (fetchDistanceDuration env a b g1).1 ∧
      (fetchDistanceDuration env a b g).2.Same (fetchDistanceDuration env a b g1).2 := by
  obtain ⟨hc, hn⟩ := h
  unfold fetchDistanceDuration
  simp only [hc, hn]
  split
  · exact ⟨rfl, rfl, rfl⟩
  · split
    · exact ⟨rfl, rfl, rfl⟩
    · exact ⟨rfl, rfl, rfl⟩

/-- A lookup leaves the unassigned list as it is. -/
theorem fetchDistanceDuration_unassigned (env : Env) (a b : Coords) (g : Globals) :
    (fetchDistanceDuration env a b g).2.unAssignedRides = g.unAssignedRides := by
  rcases fetchDistanceDuration_cases env a b g with ⟨e, _, h⟩ | ⟨_, _, h⟩ | ⟨route, hs, _, h⟩ <;>
    rw [h]

/-! ### Feasibility and cost: what they leave behind -/

theorem Reachable.mono {c c1 : Cache} {prev next : Ride}
    (hseg : ∀ a b e, c.segment a b = some e → c1.segment a b = some e)
    (h : Reachable c prev next) : Reachable c1 prev next := by
  intro hd
  obtain ⟨h1, d, hs, h2⟩ := h hd
  exact ⟨h1, d, hseg _ _ _ hs, h2⟩

theorem canReachRideOnTime_grows (env : Env) (prev : Option Ride) (next : Ride)
    (loc : Coords) (g : Globals) : g.Grows (canReachRideOnTime env prev next loc g).2 := by
  unfold canReachRideOnTime
  split
  · exact Globals.Grows.refl g
  · dsimp only
    split
    · exact Globals.Grows.refl g
    · split
      · exact Globals.Grows.refl g
      · split
        · exact Globals.Grows.refl g
        · split
          · next h =>
            have e := congrArg Prod.snd h
            dsimp only at e
            rw [← e]; exact fetchDistanceDuration_grows _ _ _ _
          · next h =>
            have e := congrArg Prod.snd h
            dsimp only at e
            rw [← e]; exact fetchDistanceDuration_grows _ _ _ _

theorem canReachRideOnTime_unassigned (env : Env) (prev : Option Ride) (next : Ride)
    (loc : Coords) (g : Globals) :
    (canReachRideOnTime env prev next loc g).2.unAssignedRides = g.unAssignedRides := by
  unfold canReachRideOnTime
  split
  · rfl
  · dsimp only
    split
    · rfl
    · split
      · rfl
      · split
        · rfl
        · split
          · next h =>
            have e := congrArg Prod.snd h
            dsimp only at e
            rw [← e]; exact fetchDistanceDuration_unassigned _ _ _ _
          · next h =>
            have e := congrArg Prod.snd h
            dsimp only at e
            rw [← e]; exact fetchDistanceDuration_unassigned _ _ _ _

theorem canReachRideOnTime_same (env : Env) (prev : Option Ride) (next : Ride)
    (loc : Coords) (g g1 : Globals) (h : g.Same g1) :
    (canReachRideOnTime env prev next loc g).1 = (canReachRideOnTime env prev next loc g1).1 ∧
      (canReachRideOnTime env prev next loc g).2.Same
        (canReachRideOnTime env prev next loc g1).2 := by
  unfold canReachRideOnTime
  split
  · exact ⟨rfl, h⟩
  · dsimp only
    split
    · exact ⟨rfl, h⟩
    · split
      · exact ⟨rfl, h⟩
      · split
        · exact ⟨rfl, h⟩
        · next p _ _ _ =>
          have hf := fetchDistanceDuration_same env p.endPoint_coords next.startPoint_coords
            g g1 h
          rcases hx : fetchDistanceDuration env p.endPoint_coords next.startPoint_coords g
            with ⟨r, gx⟩
          rcases hy : fetchDistanceDuration env p.endPoint_coords next.startPoint_coords g1
            with ⟨r1, gy⟩
          rw [hx, hy] at hf
          obtain ⟨hr, hg⟩ := hf
          dsimp only at hr hg
          subst hr
          cases r with
          | none => exact ⟨rfl, hg⟩
          | some d => exact ⟨rfl, hg⟩

/-- A ride that the reachability check lets follow `prev` is reachable from it,
with the cache as the check leaves it. -/
theorem canReachRideOnTime_true (env : Env) (prev next : Ride) (loc : Coords)
    (g g1 : Globals) (h : canReachRideOnTime env (some prev) next loc g = (.ok true, g1)) :
    Reachable g1.distanceCache prev next := by
  intro hd
  unfold canReachRideOnTime at h
  dsimp only at h
  rw [if_neg (by simpa using hd)] at h
  split at h
  · cases h
  · next hlt =>
    split at h
    · cases h
    · split at h
      · cases h
      · next d gx hf =>
        simp only [Prod.mk.injEq, Except.ok.injEq, decide_eq_true_eq] at h
        obtain ⟨hle, hg⟩ := h
        subst hg
        refine ⟨lt_of_not_ge hlt, d, ?_, by linarith⟩
        have := fetchDistanceDuration_segment env _ _ g d (by rw [hf])
        rw [hf] at this
        exact this

/-- The four ways the feasibility check can go: too few seats, no record in the
availability table, no window that fits, or the answer of the reachability
check. -/
theorem canAssignRideToDriver_cases (env : Env) (driver : Driver) (ride : Ride)
    (prev : Option Ride) (loc : Coords) (g : Globals) :
    (driver.numberOfSeats < ride.numberOfSeats ∧
      canAssignRideToDriver env driver ride prev loc g = (.ok false, g)) ∨
    (ride.numberOfSeats ≤ driver.numberOfSeats ∧
      driversAvilability.find? (fun a => a.driverId == driver.driverId) = none ∧
      canAssignRideToDriver env driver ride prev loc g = (.error .typeError, g)) ∨
    (∃ record, ride.numberOfSeats ≤ driver.numberOfSeats ∧
      driversAvilability.find? (fun a => a.driverId == driver.driverId) = some record ∧
      record.availability.find? (windowFits ride) = none ∧
      canAssignRideToDriver env driver ride prev loc g = (.ok false, g)) ∨
    (∃ record window, ride.numberOfSeats ≤ driver.numberOfSeats ∧
      driversAvilability.find? (fun a => a.driverId == driver.driverId) = some record ∧
      record.availability.find? (windowFits ride) = some window ∧
      canAssignRideToDriver env driver ride prev loc g =
        canReachRideOnTime env prev ride loc g) := by
  by_cases hs : driver.numberOfSeats < ride.numberOfSeats
  · left
    exact ⟨hs, by simp [canAssignRideToDriver, hs]⟩
  · right
    have hs1 : ride.numberOfSeats ≤ driver.numberOfSeats := Nat.le_of_not_lt hs
    cases hr : driversAvilability.find? (fun a => a.driverId == driver.driverId) with
    | none =>
      left
      refine ⟨hs1, rfl, ?_⟩
      unfold canAssignRideToDriver
      rw [if_neg hs, hr]
    | some record =>
      right
      cases hw : record.availability.find? (windowFits ride) with
      | none =>
        left
        refine ⟨record, hs1, rfl, hw, ?_⟩
        unfold canAssignRideToDriver
        rw [if_neg hs, hr]
        dsimp only
        rw [hw]
      | some window =>
        right
        refine ⟨record, window, hs1, rfl, hw, ?_⟩
        unfold canAssignRideToDriver
        rw [if_neg hs, hr]
        dsimp only
        rw [hw]
        dsimp only
        rcases canReachRideOnTime env prev ride loc g with ⟨r, gx⟩
        cases r with
        | error e => rfl
        | ok b => cases b <;> rfl

theorem canAssignRideToDriver_grows (env : Env) (driver : Driver) (ride : Ride)
    (prev : Option Ride) (loc : Coords) (g : Globals) :
    g.Grows (canAssignRideToDriver env driver ride prev loc g).2 := by
  rcases canAssignRideToDriver_cases env driver ride prev loc g with
    ⟨_, h⟩ | ⟨_, _, h⟩ | ⟨_, _, _, _, h⟩ | ⟨_, _, _, _, _, h⟩ <;> rw [h]
  · exact Globals.Grows.refl g
  · exact Globals.Grows.refl g
  · exact Globals.Grows.refl g
  · exact canReachRideOnTime_grows env prev ride loc g

theorem canAssignRideToDriver_unassigned (env : Env) (driver : Driver) (ride : Ride)
    (prev : Option Ride) (loc : Coords) (g : Globals) :
    (canAssignRideToDriver env driver ride prev loc g).2.unAssignedRides =
      g.unAssignedRides := by
  rcases canAssignRideToDriver_cases env driver ride prev loc g with
    ⟨_, h⟩ | ⟨_, _, h⟩ | ⟨_, _, _, _, h⟩ | ⟨_, _, _, _, _, h⟩ <;> rw [h]
  exact canReachRideOnTime_unassigned env prev ride loc g

theorem canAssignRideToDriver_same (env : Env) (driver : Driver) (ride : Ride)
    (prev : Option Ride) (loc : Coords) (g g1 : Globals) (h : g.Same g1) :
    (canAssignRideToDriver env driver ride prev loc g).1 =
        (canAssignRideToDriver env driver ride prev loc g1).1 ∧
      (canAssignRideToDriver env driver ride prev loc g).2.Same
        (canAssignRideToDriver env driver ride prev loc g1).2 := by
  rcases canAssignRideToDriver_cases env driver ride prev loc g with
    ⟨hs, hx⟩ | ⟨hs, hr, hx⟩ | ⟨rec, hs, hr, hw, hx⟩ | ⟨rec, w, hs, hr, hw, hx⟩
  · rcases canAssignRideToDriver_cases env driver ride prev loc g1 with
      ⟨_, hy⟩ | ⟨hs1, _, _⟩ | ⟨_, hs1, _, _, _⟩ | ⟨_, _, hs1, _, _, _⟩
    · rw [hx, hy]; exact ⟨rfl, h⟩
    all_goals exact absurd hs (Nat.not_lt.2 hs1)
  · rcases canAssignRideToDriver_cases env driver ride prev loc g1 with
      ⟨hs1, _⟩ | ⟨_, _, hy⟩ | ⟨_, _, hr1, _, _⟩ | ⟨_, _, _, hr1, _, _⟩
    · exact absurd hs1 (Nat.not_lt.2 hs)
    · rw [hx, hy]; exact ⟨rfl, h⟩
    all_goals rw [hr] at hr1; cases hr1
  · rcases canAssignRideToDriver_cases env driver ride prev loc g1 with
      ⟨hs1, _⟩ | ⟨_, hr1, _⟩ | ⟨_, _, _, _, hy⟩ | ⟨_, _, _, hr1, hw1, _⟩
    · exact absurd hs1 (Nat.not_lt.2 hs)
    · rw [hr] at hr1; cases hr1
    · rw [hx, hy]; exact ⟨rfl, h⟩
    · rw [hr] at hr1; cases hr1; rw [hw] at hw1; cases hw1
  · rcases canAssignRideToDriver_cases env driver ride prev loc g1 with
      ⟨hs1, _⟩ | ⟨_, hr1, _⟩ | ⟨_, _, hr1, hw1, _⟩ | ⟨_, _, _, _, _, hy⟩
    · exact absurd hs1 (Nat.not_lt.2 hs)
    · rw [hr] at hr1; cases hr1
    · rw [hr] at hr1; cases hr1; rw [hw] at hw1; cases hw1
    · rw [hx, hy]; exact canReachRideOnTime_same env prev ride loc g g1 h

/-- What a driver that passes the feasibility check satisfies: enough seats, a
window of the availability table that fits the ride, and the ride is reachable
from the driver's previous ride. -/
theorem canAssignRideToDriver_true (env : Env) (driver : Driver) (ride : Ride)
    (prev : Option Ride) (loc : Coords) (g g1 : Globals)
    (h : canAssignRideToDriver env driver ride prev loc g = (.ok true, g1)) :
    ride.numberOfSeats ≤ driver.numberOfSeats ∧
    (∃ record window,
      driversAvilability.find? (fun a => a.driverId == driver.driverId) = some record ∧
      record.availability.find? (windowFits ride) = some window) ∧
    ∀ p, prev = some p → Reachable g1.distanceCache p ride := by
  rcases canAssignRideToDriver_cases env driver ride prev loc g with
    ⟨_, hx⟩ | ⟨_, _, hx⟩ | ⟨_, _, _, _, hx⟩ | ⟨rec, w, hs, hr, hw, hx⟩
  · rw [hx] at h; cases h
  · rw [hx] at h; cases h
  · rw [hx] at h; cases h
  · refine ⟨hs, ⟨rec, w, hr, hw⟩, fun p hp => ?_⟩
    subst hp
    rw [hx] at h
    exact canReachRideOnTime_true env p ride loc g g1 h

/-- The module variables after a cost computation are those after its two
lookups. -/
theorem calculateRideCost_snd (env : Env) (driver : Driver) (ride : Ride) (loc : Coords)
    (g : Globals) :
    (calculateRideCost env driver ride loc g).2 =
      (fetchDistanceDuration env ride.startPoint_coords ride.endPoint_coords
        (fetchDistanceDuration env loc ride.startPoint_coords g).2).2 := by
  unfold calculateRideCost
  generalize fetchDistanceDuration env loc ride.startPoint_coords g = x
  obtain ⟨r1, gx⟩ := x
  dsimp only
  generalize fetchDistanceDuration env ride.startPoint_coords ride.endPoint_coords gx = y
  obtain ⟨r2, gy⟩ := y
  cases r1 <;> cases r2 <;> rfl

theorem calculateRideCost_grows (env : Env) (driver : Driver) (ride : Ride) (loc : Coords)
    (g : Globals) : g.Grows (calculateRideCost env driver ride loc g).2 := by
  rw [calculateRideCost_snd]
  exact (fetchDistanceDuration_grows env loc ride.startPoint_coords g).trans
    (fetchDistanceDuration_grows env _ _ _)

theorem calculateRideCost_unassigned (env : Env) (driver : Driver) (ride : Ride)
    (loc : Coords) (g : Globals) :
    (calculateRideCost env driver ride loc g).2.unAssignedRides = g.unAssignedRides := by
  rw [calculateRideCost_snd, fetchDistanceDuration_unassigned, fetchDistanceDuration_unassigned]

theorem calculateRideCost_same (env : Env) (driver : Driver) (ride : Ride) (loc : Coords)
    (g g1 : Globals) (h : g.Same g1) :
    (calculateRideCost env driver ride loc g).1 = (calculateRideCost env driver ride loc g1).1 ∧
      (calculateRideCost env driver ride loc g).2.Same
        (calculateRideCost env driver ride loc g1).2 := by
  have h1 := fetchDistanceDuration_same env loc ride.startPoint_coords g g1 h
  have h2 := fetchDistanceDuration_same env ride.startPoint_coords ride.endPoint_coords
    (fetchDistanceDuration env loc ride.startPoint_coords g).2
    (fetchDistanceDuration env loc ride.startPoint_coords g1).2 h1.2
  refine ⟨?_, ?_⟩
  · unfold calculateRideCost
    revert h1 h2
    generalize fetchDistanceDuration env loc ride.startPoint_coords g = x
    generalize fetchDistanceDuration env loc ride.startPoint_coords g1 = x1
    obtain ⟨r1, gx⟩ := x
    obtain ⟨s1, hx⟩ := x1
    dsimp only
    generalize fetchDistanceDuration env ride.startPoint_coords ride.endPoint_coords gx = y
    generalize fetchDistanceDuration env ride.startPoint_coords ride.endPoint_coords hx = y1
    obtain ⟨r2, gy⟩ := y
    obtain ⟨s2, hy⟩ := y1
    dsimp only
    rintro ⟨e1, _⟩ ⟨e2, _⟩
    subst e1; subst e2
    cases r1 <;> cases r2 <;> rfl
  · rw [calculateRideCost_snd, calculateRideCost_snd]
    exact h2.2

/-! ### The loop over the drivers -/

theorem findBestDriver_cons_error (env : Env) (sched : Schedules) (ride : Ride)
    (driver : Driver) (rest : List Driver) (best : Option BestChoice) (g g1 : Globals)
    (e : JsError)
    (h : canAssignRideToDriver env driver ride (previousRideOf sched driver)
      (startLocationOf sched driver) g = (.error e, g1)) :
    findBestDriver env sched ride (driver :: rest) best g = (.error e, g1) := by
  simp only [findBestDriver, h]

theorem findBestDriver_cons_false (env : Env) (sched : Schedules) (ride : Ride)
    (driver : Driver) (rest : List Driver) (best : Option BestChoice) (g g1 : Globals)
    (h : canAssignRideToDriver env driver ride (previousRideOf sched driver)
      (startLocationOf sched driver) g = (.ok false, g1)) :
    findBestDriver env sched ride (driver :: rest) best g =
      findBestDriver env sched ride rest best g1 := by
  simp only [findBestDriver, h]

theorem findBestDriver_cons_cost_error (env : Env) (sched : Schedules) (ride : Ride)
    (driver : Driver) (rest : List Driver) (best : Option BestChoice) (g g1 g2 : Globals)
    (e : JsError)
    (h : canAssignRideToDriver env driver ride (previousRideOf sched driver)
      (startLocationOf sched driver) g = (.ok true, g1))
    (hc : calculateRideCost env driver ride (startLocationOf sched driver) g1 = (.error e, g2)) :
    findBestDriver env sched ride (driver :: rest) best g = (.error e, g2) := by
  simp only [findBestDriver, h, hc]

theorem findBestDriver_cons_cost (env : Env) (sched : Schedules) (ride : Ride)
    (driver : Driver) (rest : List Driver) (best : Option BestChoice) (g g1 g2 : Globals)
    (cost : Cost)
    (h : canAssignRideToDriver env driver ride (previousRideOf sched driver)
      (startLocationOf sched driver) g = (.ok true, g1))
    (hc : calculateRideCost env driver ride (startLocationOf sched driver) g1 = (.ok cost, g2)) :
    findBestDriver env sched ride (driver :: rest) best g =
      findBestDriver env sched ride rest
        (if improves cost.totalCost best then
          some { bestDriver := driver, bestCost := cost.totalCost,
                 bestStartLocation := startLocationOf sched driver }
        else best) g2 := by
  simp only [findBestDriver, h, hc]
  split <;> rfl

/-- The shape of one turn of the loop over the drivers: it throws, or goes on
with the rest of the drivers from some best choice and some module variables
that the turn has grown. -/
theorem findBestDriver_cons_cases (env : Env) (sched : Schedules) (ride : Ride)
    (driver : Driver) (rest : List Driver) (best : Option BestChoice) (g : Globals) :
    (∃ e g1, g.Grows g1 ∧ g1.unAssignedRides = g.unAssignedRides ∧
      findBestDriver env sched ride (driver :: rest) best g = (.error e, g1)) ∨
    (∃ best1 g1, g.Grows g1 ∧ g1.unAssignedRides = g.unAssignedRides ∧
      findBestDriver env sched ride (driver :: rest) best g =
        findBestDriver env sched ride rest best1 g1) := by
  have hg := canAssignRideToDriver_grows env driver ride (previousRideOf sched driver)
    (startLocationOf sched driver) g
  have hu := canAssignRideToDriver_unassigned env driver ride (previousRideOf sched driver)
    (startLocationOf sched driver) g
  rcases h : canAssignRideToDriver env driver ride (previousRideOf sched driver)
    (startLocationOf sched driver) g with ⟨r, g1⟩
  rw [h] at hg hu
  dsimp only at hg hu
  cases r with
  | error e => exact Or.inl ⟨e, g1, hg, hu, findBestDriver_cons_error _ _ _ _ _ _ _ _ _ h⟩
  | ok b =>
    cases b with
    | false => exact Or.inr ⟨best, g1, hg, hu, findBestDriver_cons_false _ _ _ _ _ _ _ _ h⟩
    | true =>
      have hg2 := calculateRideCost_grows env driver ride (startLocationOf sched driver) g1
      have hu2 := calculateRideCost_unassigned env driver ride (startLocationOf sched driver) g1
      rcases hc : calculateRideCost env driver ride (startLocationOf sched driver) g1
        with ⟨r2, g2⟩
      rw [hc] at hg2 hu2
      dsimp only at hg2 hu2
      cases r2 with
      | error e =>
        exact Or.inl ⟨e, g2, hg.trans hg2, hu2.trans hu,
          findBestDriver_cons_cost_error _ _ _ _ _ _ _ _ _ _ h hc⟩
      | ok cost =>
        exact Or.inr ⟨_, g2, hg.trans hg2, hu2.trans hu,
          findBestDriver_cons_cost _ _ _ _ _ _ _ _ _ _ h hc⟩

theorem findBestDriver_grows (env : Env) (sched : Schedules) (ride : Ride)
    (drivers : List Driver) (best : Option BestChoice) (g : Globals) :
    g.Grows (findBestDriver env sched ride drivers best g).2 := by
  induction drivers generalizing best g with
  | nil => exact Globals.Grows.refl g
  | cons driver rest ih =>
    rcases findBestDriver_cons_cases env sched ride driver rest best g with
      ⟨e, g1, hg, _, h⟩ | ⟨best1, g1, hg, _, h⟩
    · rw [h]; exact hg
    · rw [h]; exact hg.trans (ih best1 g1)

/-- The loop over the drivers leaves the unassigned list as it is. -/
theorem findBestDriver_unassigned (env : Env) (sched : Schedules) (ride : Ride)
    (drivers : List Driver) (best : Option BestChoice) (g : Globals) :
    (findBestDriver env sched ride drivers best g).2.unAssignedRides = g.unAssignedRides := by
  induction drivers generalizing best g with
  | nil => rfl
  | cons driver rest ih =>
    rcases findBestDriver_cons_cases env sched ride driver rest best g with
      ⟨e, g1, _, hu, h⟩ | ⟨best1, g1, _, hu, h⟩
    · rw [h]; exact hu
    · rw [h, ih best1 g1]; exact hu

/-- The loop over the drivers reads only the cache and the request counter. -/
theorem findBestDriver_same (env : Env) (sched : Schedules) (ride : Ride)
    (drivers : List Driver) (best : Option BestChoice) (g g1 : Globals) (h : g.Same g1) :
    (findBestDriver env sched ride drivers best g).1 =
        (findBestDriver env sched ride drivers best g1).1 ∧
      (findBestDriver env sched ride drivers best g).2.Same
        (findBestDriver env sched ride drivers best g1).2 := by
  induction drivers generalizing best g g1 with
  | nil => exact ⟨rfl, h⟩
  | cons driver rest ih =>
    have ha := canAssignRideToDriver_same env driver ride (previousRideOf sched driver)
      (startLocationOf sched driver) g g1 h
    rcases hx : canAssignRideToDriver env driver ride (previousRideOf sched driver)
      (startLocationOf sched driver) g with ⟨r, gx⟩
    rcases hy : canAssignRideToDriver env driver ride (previousRideOf sched driver)
      (startLocationOf sched driver) g1 with ⟨r1, gy⟩
    rw [hx, hy] at ha
    obtain ⟨hr, hs⟩ := ha
    dsimp only at hr hs
    subst hr
    cases r with
    | error e =>
      rw [findBestDriver_cons_error _ _ _ _ _ _ _ _ _ hx,
        findBestDriver_cons_error _ _ _ _ _ _ _ _ _ hy]
      exact ⟨rfl, hs⟩
    | ok b =>
      cases b with
      | false =>
        rw [findBestDriver_cons_false _ _ _ _ _ _ _ _ hx,
          findBestDriver_cons_false _ _ _ _ _ _ _ _ hy]
        exact ih best gx gy hs
      | true =>
        have hc := calculateRideCost_same env driver ride (startLocationOf sched driver)
          gx gy hs
        rcases hcx : calculateRideCost env driver ride (startLocationOf sched driver) gx
          with ⟨c, gx2⟩
        rcases hcy : calculateRideCost env driver ride (startLocationOf sched driver) gy
          with ⟨c1, gy2⟩
        rw [hcx, hcy] at hc
        obtain ⟨hcr, hcs⟩ := hc
        dsimp only at hcr hcs
        subst hcr
        cases c with
        | error e =>
          rw [findBestDriver_cons_cost_error _ _ _ _ _ _ _ _ _ _ hx hcx,
            findBestDriver_cons_cost_error _ _ _ _ _ _ _ _ _ _ hy hcy]
          exact ⟨rfl, hcs⟩
        | ok cost =>
          rw [findBestDriver_cons_cost _ _ _ _ _ _ _ _ _ _ hx hcx,
            findBestDriver_cons_cost _ _ _ _ _ _ _ _ _ _ hy hcy]
          exact ih _ gx2 gy2 hcs

/-- What is known of the driver that the loop over the drivers chooses: it is
one of the drivers, it passed the feasibility check, and the facts the check
established still hold with the cache as the loop leaves it. -/
theorem findBestDriver_chosen (env : Env) (sched : Schedules) (ride : Ride)
    (drivers : List Driver) (acc : Option BestChoice) (g g1 : Globals) (b : BestChoice)
    (h : findBestDriver env sched ride drivers acc g = (.ok (some b), g1)) :
    acc = some b ∨
      (b.bestDriver ∈ drivers ∧ ride.numberOfSeats ≤ b.bestDriver.numberOfSeats ∧
        ∀ p, previousRideOf sched b.bestDriver = some p →
          Reachable g1.distanceCache p ride) := by
  induction drivers generalizing acc g with
  | nil =>
    simp only [findBestDriver, Prod.mk.injEq, Except.ok.injEq] at h
    exact Or.inl h.1
  | cons driver rest ih =>
    rcases hx : canAssignRideToDriver env driver ride (previousRideOf sched driver)
      (startLocationOf sched driver) g with ⟨r, gx⟩
    cases r with
    | error e => rw [findBestDriver_cons_error _ _ _ _ _ _ _ _ _ hx] at h; cases h
    | ok ok =>
      cases ok with
      | false =>
        rw [findBestDriver_cons_false _ _ _ _ _ _ _ _ hx] at h
        rcases ih acc gx h with h1 | ⟨hm, h2⟩
        · exact Or.inl h1
        · exact Or.inr ⟨List.mem_cons_of_mem _ hm, h2⟩
      | true =>
        rcases hc : calculateRideCost env driver ride (startLocationOf sched driver) gx
          with ⟨c, g2⟩
        cases c with
        | error e =>
          rw [findBestDriver_cons_cost_error _ _ _ _ _ _ _ _ _ _ hx hc] at h; cases h
        | ok cost =>
          rw [findBestDriver_cons_cost _ _ _ _ _ _ _ _ _ _ hx hc] at h
          rcases ih _ g2 h with h1 | ⟨hm, h2⟩
          · by_cases hi : improves cost.totalCost acc = true
            · rw [if_pos hi] at h1
              simp only [Option.some.injEq] at h1
              subst h1
              obtain ⟨hs, _, hr⟩ := canAssignRideToDriver_true _ _ _ _ _ _ _ hx
              have hg2 := calculateRideCost_grows env driver ride
                (startLocationOf sched driver) gx
              rw [hc] at hg2
              have hg1 := findBestDriver_grows env sched ride rest
                (if improves cost.totalCost acc = true then
                  some { bestDriver := driver, bestCost := cost.totalCost,
                         bestStartLocation := startLocationOf sched driver }
                else acc) g2
              rw [h] at hg1
              exact Or.inr ⟨List.mem_cons_self _ _, hs, fun p hp =>
                (hr p hp).mono (hg2.trans hg1).segment⟩
            · rw [if_neg hi] at h1
              exact Or.inl h1
          · exact Or.inr ⟨List.mem_cons_of_mem _ hm, h2⟩

/-- No driver has enough seats: the loop over the drivers changes nothing. -/
theorem findBestDriver_of_seats_lt (env : Env) (sched : Schedules) (ride : Ride)
    (drivers : List Driver) (best : Option BestChoice) (g : Globals)
    (h : ∀ d ∈ drivers, d.numberOfSeats < ride.numberOfSeats) :
    findBestDriver env sched ride drivers best g = (.ok best, g) := by
  induction drivers with
  | nil => rfl
  | cons driver rest ih =>
    have hd : driver.numberOfSeats < ride.numberOfSeats := h driver (List.mem_cons_self _ _)
    have hx : canAssignRideToDriver env driver ride (previousRideOf sched driver)
        (startLocationOf sched driver) g = (.ok false, g) := by
      simp [canAssignRideToDriver, hd]
    rw [findBestDriver_cons_false _ _ _ _ _ _ _ _ hx]
    exact ih (fun d hd => h d (List.mem_cons_of_mem _ hd))

/-! ### The loop over the rides -/

theorem scheduleRides_cons_error (env : Env) (drivers : List Driver) (ride : Ride)
    (rest : List Ride) (st : SchedulerState) (g g1 : Globals) (e : JsError)
    (h : findBestDriver env st.driverSchedules ride drivers none g = (.error e, g1)) :
    scheduleRides env drivers (ride :: rest) st g =
      { thrown := some e, state := st, globals := g1 } := by
  simp only [scheduleRides, h]

theorem scheduleRides_cons_ok (env : Env) (drivers : List Driver) (ride : Ride)
    (rest : List Ride) (st : SchedulerState) (g g1 : Globals) (best : Option BestChoice)
    (h : findBestDriver env st.driverSchedules ride drivers none g = (.ok best, g1)) :
    scheduleRides env drivers (ride :: rest) st g =
      scheduleRides env drivers rest (assignRide ride best st g1).1
        (assignRide ride best st g1).2 := by
  simp only [scheduleRides, h]

/-- Induction over the loop over the rides: a property of the rides still to
come, the local variables and the module variables that holds at the start and
that every completed turn keeps holds where the loop ends; a turn that throws
ends the loop with the local variables of its start and the module variables
that the search for a driver has grown. -/
theorem scheduleRides_induction (env : Env) (drivers : List Driver)
    (P : List Ride → SchedulerState → Globals → Prop)
    (Q : SchedulerState → Globals → Prop)
    (hstep : ∀ ride rest st g g1 best, P (ride :: rest) st g →
      findBestDriver env st.driverSchedules ride drivers none g = (.ok best, g1) →
      P rest (assignRide ride best st g1).1 (assignRide ride best st g1).2)
    (hthrow : ∀ ride rest st g g1, P (ride :: rest) st g → g.Grows g1 → Q st g1)
    (hend : ∀ st g, P [] st g → Q st g)
    (rides : List Ride) (st : SchedulerState) (g : Globals) (h : P rides st g) :
    Q (scheduleRides env drivers rides st g).state
      (scheduleRides env drivers rides st g).globals := by
  induction rides generalizing st g with
  | nil => exact hend st g h
  | cons ride rest ih =>
    have hg := findBestDriver_grows env st.driverSchedules ride drivers none g
    rcases hf : findBestDriver env st.driverSchedules ride drivers none g with ⟨r, g1⟩
    rw [hf] at hg
    cases r with
    | error e =>
      rw [scheduleRides_cons_error _ _ _ _ _ _ _ _ hf]
      exact hthrow ride rest st g g1 h hg
    | ok best =>
      rw [scheduleRides_cons_ok _ _ _ _ _ _ _ _ hf]
      exact ih _ _ (hstep ride rest st g g1 best h hf)

theorem assignRide_globals_grows (ride : Ride) (best : Option BestChoice)
    (st : SchedulerState) (g : Globals) : g.Grows (assignRide ride best st g).2 := by
  cases best with
  | none =>
    exact ⟨le_refl _, fun _ => rfl, fun _ _ _ h => h,
      fun x hx => List.mem_append_left _ hx⟩
  | some b => exact Globals.Grows.refl g

theorem scheduleRides_grows (env : Env) (drivers : List Driver) (rides : List Ride)
    (st : SchedulerState) (g : Globals) :
    g.Grows (scheduleRides env drivers rides st g).globals := by
  refine scheduleRides_induction env drivers (fun _ _ g1 => g.Grows g1)
    (fun _ g1 => g.Grows g1) ?_ ?_ ?_ rides st g (Globals.Grows.refl g)
  · intro ride rest st0 g0 g1 best h hf
    have hg := findBestDriver_grows env st0.driverSchedules ride drivers none g0
    rw [hf] at hg
    exact (h.trans hg).trans (assignRide_globals_grows ride best st0 g1)
  · intro ride rest st0 g0 g1 h hg
    exact h.trans hg
  · intro st0 g0 h
    exact h

theorem initSchedules_eq (drivers : List Driver) (driverId : String) :
    initSchedules drivers driverId = [] := by
  unfold initSchedules
  have key : ∀ (s : Schedules), s driverId = [] →
      (drivers.foldl (fun s driver => s.set driver.driverId []) s) driverId = [] := by
    induction drivers with
    | nil => intro s hs; exact hs
    | cons d rest ih =>
      intro s hs
      simp only [List.foldl_cons]
      apply ih
      unfold Schedules.set
      split
      · rfl
      · exact hs
  exact key _ rfl

/-- The schedules after a ride is given to the best driver. -/
theorem assignRide_schedules_some (ride : Ride) (b : BestChoice) (st : SchedulerState)
    (g : Globals) (driverId : String) :
    (assignRide ride (some b) st g).1.driverSchedules driverId =
      if driverId = b.bestDriver.driverId then st.driverSchedules driverId ++ [ride]
      else st.driverSchedules driverId := by
  simp only [assignRide, Schedules.set]
  split
  · next h => rw [h]
  · rfl

theorem assignRide_state_none (ride : Ride) (st : SchedulerState) (g : Globals) :
    (assignRide ride none st g).1 = st := rfl

/-- C2: every ride that `optimizeDriverScheduling` puts on the schedule of a
driver id (the rides whose cost is counted in `totalCost`) needs no more seats
than a driver of the input with that id has; with distinct driver ids that is
the driver the ride was given to.  This holds for every input and every answer
of the routing service, also for a run that ends with an error. -/
theorem assigned_rides_fit_seats (env : Env) (drivers : List Driver) (rides : List Ride)
    (g : Globals) :
    ∀ driverId : String, ∀ ride ∈ finalSchedules env drivers rides g driverId,
      ∃ driver ∈ drivers, driver.driverId = driverId ∧
        ride.numberOfSeats ≤ driver.numberOfSeats := by
  show SeatsFit drivers (finalSchedules env drivers rides g)
  unfold finalSchedules runScheduler
  refine scheduleRides_induction env drivers
    (fun _ st _ => SeatsFit drivers st.driverSchedules)
    (fun st _ => SeatsFit drivers st.driverSchedules) ?_ ?_ ?_ _ _ g ?_
  · intro ride rest st g0 g1 best h hf
    cases best with
    | none => exact h
    | some b =>
      rcases findBestDriver_chosen env _ ride drivers none g0 g1 b hf with h0 | ⟨hm, hs, _⟩
      · cases h0
      · intro driverId r hr
        rw [assignRide_schedules_some] at hr
        split at hr
        · next hid =>
          rcases List.mem_append.1 hr with h1 | h1
          · exact h driverId r h1
          · simp only [List.mem_singleton] at h1
            subst h1
            exact ⟨b.bestDriver, hm, hid.symm, hs⟩
        · exact h driverId r hr
  · intro ride rest st g0 g1 h _
    exact h
  · intro st g0 h
    exact h
  · intro driverId r hr
    simp only [initSchedules_eq] at hr
    cases hr

/-- Witness of `assigned_rides_fit_seats`: the ride of two seats that the run
puts on the schedule of the driver with four seats. -/
theorem assigned_rides_fit_seats_witness :
    rideMorning ∈ finalSchedules envUp [driverOne] [rideMorning] freshGlobals "driver1" ∧
    ∃ driver ∈ [driverOne], driver.driverId = "driver1" ∧
      rideMorning.numberOfSeats ≤ driver.numberOfSeats :=
  ⟨by decide!,
    assigned_rides_fit_seats envUp [driverOne] [rideMorning] freshGlobals "driver1"
      rideMorning (by decide!)⟩

theorem BufferKept.carry {c c1 : Cache} {sched : Schedules}
    (hseg : ∀ a b e, c.segment a b = some e → c1.segment a b = some e)
    (h : BufferKept c sched) : BufferKept c1 sched :=
  fun driverId => (h driverId).imp (fun _ _ hr => hr.mono hseg)

theorem assignRide_cache (ride : Ride) (best : Option BestChoice) (st : SchedulerState)
    (g : Globals) : (assignRide ride best st g).2.distanceCache = g.distanceCache := by
  cases best <;> rfl

/-- A completed turn of the loop over the rides keeps `BufferKept`. -/
theorem BufferKept.step (env : Env) (drivers : List Driver) (ride : Ride)
    (st : SchedulerState) (g g1 : Globals) (best : Option BestChoice)
    (h : BufferKept g.distanceCache st.driverSchedules)
    (hf : findBestDriver env st.driverSchedules ride drivers none g = (.ok best, g1)) :
    BufferKept (assignRide ride best st g1).2.distanceCache
      (assignRide ride best st g1).1.driverSchedules := by
  have hg := findBestDriver_grows env st.driverSchedules ride drivers none g
  rw [hf] at hg
  have h1 : BufferKept g1.distanceCache st.driverSchedules := h.carry hg.segment
  rw [assignRide_cache]
  cases best with
  | none => exact h1
  | some b =>
    rcases findBestDriver_chosen env _ ride drivers none g g1 b hf with h0 | ⟨_, _, hr⟩
    · cases h0
    · intro driverId
      rw [assignRide_schedules_some]
      split
      · next hid =>
        subst hid
        refine List.chain'_append.2 ⟨h1 _, List.chain'_singleton _, ?_⟩
        intro x hx y hy
        simp only [List.head?_cons, Option.mem_def, Option.some.injEq] at hy
        subst hy
        exact hr x hx
      · exact h1 driverId

/-- C3: on every schedule that `optimizeDriverScheduling` builds, for every two
consecutive rides `prev`, `next` of the same date, a lookup of the segment from
`prev.endPoint_coords` to `next.startPoint_coords` with the module variables as
the run leaves them returns an entry `d` (the entry that the reachability check
was given, which the cache keeps), and
`parseTimeToMinutes(prev.endTime) + 60 * d.duration + 10 <=
parseTimeToMinutes(next.startTime)`. -/
theorem consecutive_rides_keep_buffer (env : Env) (drivers : List Driver)
    (rides : List Ride) (g : Globals) (driverId : String) (before after : List Ride)
    (prev next : Ride)
    (hsched : finalSchedules env drivers rides g driverId = before ++ prev :: next :: after)
    (hdate : prev.date = next.date) :
    ∃ d, (fetchDistanceDuration env prev.endPoint_coords next.startPoint_coords
        (runScheduler env drivers rides g).globals).1 = some d ∧
      parseTimeToMinutes prev.endTime + 60 * d.duration + 10 ≤
        parseTimeToMinutes next.startTime := by
  have hinv : BufferKept (runScheduler env drivers rides g).globals.distanceCache
      (runScheduler env drivers rides g).state.driverSchedules := by
    unfold runScheduler
    refine scheduleRides_induction env drivers
      (fun _ st g0 => BufferKept g0.distanceCache st.driverSchedules)
      (fun st g0 => BufferKept g0.distanceCache st.driverSchedules) ?_ ?_ ?_ _ _ g ?_
    · intro ride rest st g0 g1 best h hf
      exact BufferKept.step env drivers ride st g0 g1 best h hf
    · intro ride rest st g0 g1 h hg
      exact h.carry hg.segment
    · intro st g0 h
      exact h
    · intro driverId
      simp only [initSchedules_eq]
      exact List.chain'_nil
  have hchain := hinv driverId
  unfold finalSchedules at hsched
  rw [hsched] at hchain
  have h2 := (List.chain'_append.1 hchain).2.1
  obtain ⟨_, d, hs, hle⟩ := (List.chain'_cons.1 h2).1 hdate
  exact ⟨d, by rw [fetchDistanceDuration_hit env _ _ _ d hs], hle⟩

/-- Witness of `consecutive_rides_keep_buffer`: two rides of the same day that
the one driver takes one after the other. -/
theorem consecutive_rides_keep_buffer_witness :
    finalSchedules envUp [driverOne] [rideNoon, rideMorning] freshGlobals "driver1" =
      [] ++ rideMorning :: rideNoon :: [] ∧
    ∃ d, (fetchDistanceDuration envUp rideMorning.endPoint_coords rideNoon.startPoint_coords
        (runScheduler envUp [driverOne] [rideNoon, rideMorning] freshGlobals).globals).1 =
          some d ∧
      parseTimeToMinutes rideMorning.endTime + 60 * d.duration + 10 ≤
        parseTimeToMinutes rideNoon.startTime :=
  ⟨by decide!,
    consecutive_rides_keep_buffer envUp [driverOne] [rideNoon, rideMorning] freshGlobals
      "driver1" [] [] rideMorning rideNoon (by decide!) (by decide!)⟩

/-! ### Order of the rides -/

/-- The comparator puts `a` first or leaves the pair alone exactly when `a` is
of an earlier date, or of the same date and does not start later. -/
theorem compareRides_le_zero_iff (a b : Ride) :
    compareRides a b ≤ 0 ↔
      a.date < b.date ∨
        (a.date = b.date ∧ parseTimeToMinutes a.startTime ≤ parseTimeToMinutes b.startTime) := by
  unfold compareRides dateValue
  by_cases h : a.date = b.date
  · simp [h]
  · rw [if_pos h]
    have hc : ((a.date : ℚ) ≤ (b.date : ℚ)) ↔ a.date ≤ b.date := Int.cast_le
    constructor
    · intro hle
      have : (a.date : ℚ) ≤ (b.date : ℚ) := by linarith
      exact Or.inl (lt_of_le_of_ne (hc.1 this) h)
    · rintro (hlt | ⟨he, _⟩)
      · have : (a.date : ℚ) ≤ (b.date : ℚ) := hc.2 (le_of_lt hlt)
        linarith
      · exact absurd he h

theorem compareRides_total (a b : Ride) : compareRides a b ≤ 0 ∨ compareRides b a ≤ 0 := by
  rw [compareRides_le_zero_iff, compareRides_le_zero_iff]
  rcases lt_trichotomy a.date b.date with h | h | h
  · exact Or.inl (Or.inl h)
  · rcases le_total (parseTimeToMinutes a.startTime) (parseTimeToMinutes b.startTime)
      with h1 | h1
    · exact Or.inl (Or.inr ⟨h, h1⟩)
    · exact Or.inr (Or.inr ⟨h.symm, h1⟩)
  · exact Or.inr (Or.inl h)

theorem compareRides_trans (a b c : Ride) (h1 : compareRides a b ≤ 0)
    (h2 : compareRides b c ≤ 0) : compareRides a c ≤ 0 := by
  rw [compareRides_le_zero_iff] at *
  rcases h1 with h1 | ⟨h1, h1s⟩
  · rcases h2 with h2 | ⟨h2, _⟩
    · exact Or.inl (lt_trans h1 h2)
    · exact Or.inl (h2 ▸ h1)
  · rcases h2 with h2 | ⟨h2, h2s⟩
    · exact Or.inl (h1 ▸ h2)
    · exact Or.inr ⟨h1.trans h2, le_trans h1s h2s⟩

/-- The sorted rides are in ascending order of the comparator. -/
theorem sortRidesChronologically_sorted (rides : List Ride) :
    (sortRidesChronologically rides).Pairwise (fun a b => compareRides a b ≤ 0) :=
  @List.sorted_insertionSort Ride (fun a b => compareRides a b ≤ 0) _
    ⟨compareRides_total⟩ ⟨compareRides_trans⟩ rides

theorem sortRidesChronologically_mem (rides : List Ride) (r : Ride) :
    r ∈ sortRidesChronologically rides ↔ r ∈ rides :=
  List.mem_insertionSort _

theorem Orderly.nil (todo : List Ride) : Orderly todo [] :=
  ⟨fun _ h => (by cases h), List.Pairwise.nil, List.Pairwise.nil, fun _ h => (by cases h)⟩

theorem Orderly.tail {ride : Ride} {rest l : List Ride} (h : Orderly (ride :: rest) l) :
    Orderly rest l :=
  ⟨fun a ha r hr => h.1 a ha r (List.mem_cons_of_mem _ hr), h.2.1, h.2.2.1, h.2.2.2⟩

/-- Putting the next ride at the end of an orderly schedule, when it ends after
it starts, is of no later date than the rides to come, and starts after the
last ride of the schedule ends if that ride is of the same date. -/
theorem Orderly.concat {ride : Ride} {rest l : List Ride} (h : Orderly (ride :: rest) l)
    (hpos : parseTimeToMinutes ride.startTime < parseTimeToMinutes ride.endTime)
    (hrest : ∀ r ∈ rest, ride.date ≤ r.date)
    (hlast : ∀ p, l.getLast? = some p → p.date = ride.date →
      parseTimeToMinutes p.endTime < parseTimeToMinutes ride.startTime) :
    Orderly rest (l ++ [ride]) := by
  obtain ⟨h1, h2, h3, h4⟩ := h
  have hdate : ∀ a ∈ l, a.date ≤ ride.date := fun a ha => h1 a ha ride (List.mem_cons_self _ _)
  refine ⟨?_, ?_, ?_, ?_⟩
  · intro a ha r hr
    rcases List.mem_append.1 ha with ha | ha
    · exact h1 a ha r (List.mem_cons_of_mem _ hr)
    · simp only [List.mem_singleton] at ha
      subst ha
      exact hrest r hr
  · refine List.pairwise_append.2 ⟨h2, List.pairwise_singleton _ _, ?_⟩
    intro a ha b hb
    simp only [List.mem_singleton] at hb
    subst hb
    exact hdate a ha
  · refine List.pairwise_append.2 ⟨h3, List.pairwise_singleton _ _, ?_⟩
    intro a ha b hb
    simp only [List.mem_singleton] at hb
    subst hb
    intro hab
    rcases List.eq_nil_or_concat l with hl | ⟨l0, p, hl⟩
    · subst hl; cases ha
    · rw [List.concat_eq_append] at hl
      subst hl
      have hp : parseTimeToMinutes p.endTime < parseTimeToMinutes b.startTime := by
        apply hlast p (List.getLast?_concat _)
        have hpb : p.date ≤ b.date := hdate p (by simp)
        rcases List.mem_append.1 ha with ha0 | ha0
        · have hap : a.date ≤ p.date :=
            (List.pairwise_append.1 h2).2.2 a ha0 p (by simp)
          exact le_antisymm hpb (by rw [← hab]; exact hap)
        · simp only [List.mem_singleton] at ha0
          subst ha0
          exact hab
      rcases List.mem_append.1 ha with ha0 | ha0
      · have hap : a.date ≤ p.date := (List.pairwise_append.1 h2).2.2 a ha0 p (by simp)
        have hpb : p.date ≤ b.date := hdate p (by simp)
        have hap2 : a.date = p.date := le_antisymm hap (by rw [hab]; exact hpb)
        have h5 := (List.pairwise_append.1 h3).2.2 a ha0 p (by simp) hap2
        have h6 := h4 p (by simp)
        linarith
      · simp only [List.mem_singleton] at ha0
        subst ha0
        exact hp
  · intro a ha
    rcases List.mem_append.1 ha with ha | ha
    · exact h4 a ha
    · simp only [List.mem_singleton] at ha
      subst ha
      exact hpos

/-- C4: when each ride of the input ends after it starts, on every schedule
that `optimizeDriverScheduling` builds any two rides of the same date, whether
next to each other or not, have spans `[startTime, endTime)` that do not
overlap: the later one on the schedule starts after the earlier one ends. -/
theorem same_day_rides_do_not_overlap (env : Env) (drivers : List Driver)
    (rides : List Ride) (g : Globals)
    (hpos : ∀ r ∈ rides, parseTimeToMinutes r.startTime < parseTimeToMinutes r.endTime)
    (driverId : String) :
    (finalSchedules env drivers rides g driverId).Pairwise
      (fun a b => a.date = b.date → ¬ Overlap a b) := by
  have hinv : ∀ driverId : String,
      ((runScheduler env drivers rides g).state.driverSchedules driverId).Pairwise
        (fun a b => a.date = b.date →
          parseTimeToMinutes a.endTime < parseTimeToMinutes b.startTime) := by
    unfold runScheduler
    refine scheduleRides_induction env drivers
      (fun todo st _ => (∀ driverId : String, Orderly todo (st.driverSchedules driverId)) ∧
        todo.Pairwise (fun a b => a.date ≤ b.date) ∧
        ∀ r ∈ todo, parseTimeToMinutes r.startTime < parseTimeToMinutes r.endTime)
      (fun st _ => ∀ driverId : String, (st.driverSchedules driverId).Pairwise
        (fun a b => a.date = b.date →
          parseTimeToMinutes a.endTime < parseTimeToMinutes b.startTime)) ?_ ?_ ?_ _ _ g ?_
    · intro ride rest st g0 g1 best h hf
      obtain ⟨h1, h2, h3⟩ := h
      refine ⟨?_, (List.pairwise_cons.1 h2).2, fun r hr => h3 r (List.mem_cons_of_mem _ hr)⟩
      cases best with
      | none => exact fun driverId => (h1 driverId).tail
      | some b =>
        rcases findBestDriver_chosen env _ ride drivers none g0 g1 b hf with h0 | ⟨_, _, hr⟩
        · cases h0
        · intro driverId
          rw [assignRide_schedules_some]
          split
          · next hid =>
            subst hid
            exact (h1 _).concat (h3 ride (List.mem_cons_self _ _))
              (List.pairwise_cons.1 h2).1 (fun p hp hd => (hr p hp hd).1)
          · exact (h1 driverId).tail
    · intro ride rest st g0 g1 h _ driverId
      exact (h.1 driverId).2.2.1
    · intro st g0 h driverId
      exact (h.1 driverId).2.2.1
    · refine ⟨fun driverId => ?_, ?_, ?_⟩
      · simp only [initSchedules_eq]
        exact Orderly.nil _
      · refine (sortRidesChronologically_sorted rides).imp ?_
        intro a b hab
        rcases (compareRides_le_zero_iff a b).1 hab with h | ⟨h, _⟩
        · exact le_of_lt h
        · exact le_of_eq h
      · intro r hr
        exact hpos r ((sortRidesChronologically_mem rides r).1 hr)
  refine (hinv driverId).imp ?_
  intro a b hab hd hov
  exact absurd hov.2 (not_lt.2 (le_of_lt (hab hd)))

/-- Witness of `same_day_rides_do_not_overlap`: two rides of the same day on
the schedule of the one driver. -/
theorem same_day_rides_do_not_overlap_witness :
    (∀ r ∈ [rideNoon, rideMorning],
      parseTimeToMinutes r.startTime < parseTimeToMinutes r.endTime) ∧
    finalSchedules envUp [driverOne] [rideNoon, rideMorning] freshGlobals "driver1" =
      [rideMorning, rideNoon] ∧
    (finalSchedules envUp [driverOne] [rideNoon, rideMorning] freshGlobals "driver1").Pairwise
      (fun a b => a.date = b.date → ¬ Overlap a b) :=
  ⟨by decide!, by decide!,
    same_day_rides_do_not_overlap envUp [driverOne] [rideNoon, rideMorning] freshGlobals
      (by decide!) "driver1"⟩

/-! ### The choice of the best driver -/

theorem FeasibleAt.cost_eq {env : Env} {sched : Schedules} {ride : Ride} {driver : Driver}
    {g gx g2 : Globals} {c : ℚ} {cost : Cost} (h : FeasibleAt env sched ride driver g c)
    (hx : canAssignRideToDriver env driver ride (previousRideOf sched driver)
      (startLocationOf sched driver) g = (.ok true, gx))
    (hc : calculateRideCost env driver ride (startLocationOf sched driver) gx = (.ok cost, g2)) :
    c = cost.totalCost := by
  obtain ⟨g1, g3, cost1, h1, h2, h3⟩ := h
  rw [hx] at h1
  simp only [Prod.mk.injEq, true_and] at h1
  subst h1
  rw [hc] at h2
  simp only [Prod.mk.injEq, Except.ok.injEq] at h2
  rw [← h3, ← h2.1]

theorem FeasibleAt.not_of_false {env : Env} {sched : Schedules} {ride : Ride}
    {driver : Driver} {g gx : Globals} {c : ℚ} (h : FeasibleAt env sched ride driver g c)
    (hx : canAssignRideToDriver env driver ride (previousRideOf sched driver)
      (startLocationOf sched driver) g = (.ok false, gx)) : False := by
  obtain ⟨g1, g3, cost1, h1, _, _⟩ := h
  rw [hx] at h1
  simp at h1

/-- The best choice after a turn is no dearer than the cost of the turn. -/
theorem improves_le (c : ℚ) (acc : Option BestChoice) (d : Driver) (loc : Coords) :
    ∃ a, (if improves c acc = true then
        some { bestDriver := d, bestCost := c, bestStartLocation := loc } else acc) = some a ∧
      a.bestCost ≤ c := by
  by_cases hi : improves c acc = true
  · rw [if_pos hi]; exact ⟨_, rfl, le_refl _⟩
  · rw [if_neg hi]
    cases acc with
    | none => simp [improves] at hi
    | some a =>
      refine ⟨a, rfl, ?_⟩
      simpa [improves] using hi

/-- What the loop over the drivers computes, started from any best choice
`acc`: the result is no dearer than `acc` and than any feasible driver of the
list, and it is either `acc` or a feasible driver of the list that is cheaper
than `acc` and than every feasible driver before it. -/
theorem findBestDriver_spec (env : Env) (sched : Schedules) (ride : Ride)
    (drivers : List Driver) (acc : Option BestChoice) (g g1 : Globals)
    (best : Option BestChoice)
    (h : findBestDriver env sched ride drivers acc g = (.ok best, g1)) :
    (∀ a, acc = some a → ∃ b, best = some b ∧ b.bestCost ≤ a.bestCost) ∧
    (∀ pre d post c, drivers = pre ++ d :: post →
      FeasibleAt env sched ride d (findBestDriver env sched ride pre acc g).2 c →
      ∃ b, best = some b ∧ b.bestCost ≤ c) ∧
    (∀ b, best = some b → acc = some b ∨
      ∃ pre post, drivers = pre ++ b.bestDriver :: post ∧
        FeasibleAt env sched ride b.bestDriver
          (findBestDriver env sched ride pre acc g).2 b.bestCost ∧
        b.bestStartLocation = startLocationOf sched b.bestDriver ∧
        (∀ a, acc = some a → b.bestCost < a.bestCost) ∧
        ∀ pre1 d1 post1 c1, drivers = pre1 ++ d1 :: post1 → pre1.length < pre.length →
          FeasibleAt env sched ride d1 (findBestDriver env sched ride pre1 acc g).2 c1 →
          b.bestCost < c1) := by
  induction drivers generalizing acc g with
  | nil =>
    simp only [findBestDriver, Prod.mk.injEq, Except.ok.injEq] at h
    obtain ⟨hb, _⟩ := h
    subst hb
    refine ⟨fun a ha => ⟨a, ha, le_refl _⟩, ?_, fun b hb => Or.inl hb⟩
    intro pre d post c hsplit
    cases pre <;> simp at hsplit
  | cons driver rest ih =>
    rcases hx : canAssignRideToDriver env driver ride (previousRideOf sched driver)
      (startLocationOf sched driver) g with ⟨r, gx⟩
    cases r with
    | error e => rw [findBestDriver_cons_error _ _ _ _ _ _ _ _ _ hx] at h; cases h
    | ok ok =>
      cases ok with
      | false =>
        have hstep : ∀ l, findBestDriver env sched ride (driver :: l) acc g =
            findBestDriver env sched ride l acc gx :=
          fun l => findBestDriver_cons_false _ _ _ _ _ _ _ _ hx
        rw [hstep] at h
        obtain ⟨ihA, ihB, ihC⟩ := ih acc gx h
        refine ⟨ihA, ?_, ?_⟩
        · intro pre d post c hsplit hfeas
          cases pre with
          | nil =>
            simp only [List.nil_append, List.cons.injEq] at hsplit
            obtain ⟨hd, _⟩ := hsplit
            subst hd
            exact (hfeas.not_of_false hx).elim
          | cons d0 pre0 =>
            simp only [List.cons_append, List.cons.injEq] at hsplit
            obtain ⟨hd, hrest⟩ := hsplit
            subst hd
            rw [hstep] at hfeas
            exact ihB pre0 d post c hrest hfeas
        · intro b hb
          rcases ihC b hb with h0 | ⟨pre, post, hsplit, hfeas, hloc, hacc, hearlier⟩
          · exact Or.inl h0
          · refine Or.inr ⟨driver :: pre, post, by rw [hsplit]; rfl, ?_, hloc, hacc, ?_⟩
            · rw [hstep]; exact hfeas
            · intro pre1 d1 post1 c1 hsplit1 hlen hfeas1
              cases pre1 with
              | nil =>
                simp only [List.nil_append, List.cons.injEq] at hsplit1
                obtain ⟨hd, _⟩ := hsplit1
                subst hd
                exact (hfeas1.not_of_false hx).elim
              | cons d0 pre0 =>
                simp only [List.cons_append, List.cons.injEq] at hsplit1
                obtain ⟨hd, hrest⟩ := hsplit1
                subst hd
                rw [hstep] at hfeas1
                exact hearlier pre0 d1 post1 c1 hrest
                  (by simpa using hlen) hfeas1
      | true =>
        rcases hc : calculateRideCost env driver ride (startLocationOf sched driver) gx
          with ⟨cr, g2⟩
        cases cr with
        | error e =>
          rw [findBestDriver_cons_cost_error _ _ _ _ _ _ _ _ _ _ hx hc] at h; cases h
        | ok cost =>
          have hstep : ∀ l, findBestDriver env sched ride (driver :: l) acc g =
              findBestDriver env sched ride l
                (if improves cost.totalCost acc = true then
                  some { bestDriver := driver, bestCost := cost.totalCost,
                         bestStartLocation := startLocationOf sched driver }
                else acc) g2 :=
            fun l => findBestDriver_cons_cost _ _ _ _ _ _ _ _ _ _ hx hc
          rw [hstep] at h
          obtain ⟨ihA, ihB, ihC⟩ := ih _ g2 h
          obtain ⟨a1, ha1, ha1le⟩ := improves_le cost.totalCost acc driver
            (startLocationOf sched driver)
          -- the new best choice is no dearer than the old one
          have hacc1 : ∀ a, acc = some a → a1.bestCost ≤ a.bestCost := by
            intro a ha
            subst ha
            by_cases hi : improves cost.totalCost (some a) = true
            · rw [if_pos hi] at ha1
              simp only [Option.some.injEq] at ha1
              subst ha1
              simp only [improves, decide_eq_true_eq] at hi
              exact le_of_lt hi
            · rw [if_neg hi] at ha1
              simp only [Option.some.injEq] at ha1
              subst ha1
              exact le_refl _
          have hfeasD : FeasibleAt env sched ride driver g cost.totalCost :=
            ⟨gx, g2, cost, hx, hc, rfl⟩
          refine ⟨?_, ?_, ?_⟩
          · intro a ha
            obtain ⟨b, hb, hble⟩ := ihA a1 ha1
            exact ⟨b, hb, le_trans hble (hacc1 a ha)⟩
          · intro pre d post c hsplit hfeas
            cases pre with
            | nil =>
              simp only [List.nil_append, List.cons.injEq] at hsplit
              obtain ⟨hd, _⟩ := hsplit
              subst hd
              have hceq := hfeas.cost_eq hx hc
              obtain ⟨b, hb, hble⟩ := ihA a1 ha1
              exact ⟨b, hb, by rw [hceq]; exact le_trans hble ha1le⟩
            | cons d0 pre0 =>
              simp only [List.cons_append, List.cons.injEq] at hsplit
              obtain ⟨hd, hrest⟩ := hsplit
              subst hd
              rw [hstep] at hfeas
              exact ihB pre0 d post c hrest hfeas
          · intro b hb
            rcases ihC b hb with h0 | ⟨pre, post, hsplit, hfeas, hloc, hacc, hearlier⟩
            · by_cases hi : improves cost.totalCost acc = true
              · rw [if_pos hi] at h0
                simp only [Option.some.injEq] at h0
                subst h0
                refine Or.inr ⟨[], rest, rfl, hfeasD, rfl, ?_, ?_⟩
                · intro a ha
                  subst ha
                  simpa [improves] using hi
                · intro pre1 d1 post1 c1 _ hlen
                  simp at hlen
              · rw [if_neg hi] at h0
                exact Or.inl h0
            · have hb1 : b.bestCost < a1.bestCost := hacc a1 ha1
              refine Or.inr ⟨driver :: pre, post, by rw [hsplit]; rfl, ?_, hloc, ?_, ?_⟩
              · rw [hstep]; exact hfeas
              · intro a ha
                exact lt_of_lt_of_le hb1 (hacc1 a ha)
              · intro pre1 d1 post1 c1 hsplit1 hlen hfeas1
                cases pre1 with
                | nil =>
                  simp only [List.nil_append, List.cons.injEq] at hsplit1
                  obtain ⟨hd, _⟩ := hsplit1
                  subst hd
                  have hceq := hfeas1.cost_eq hx hc
                  rw [hceq]
                  exact lt_of_lt_of_le hb1 ha1le
                | cons d0 pre0 =>
                  simp only [List.cons_append, List.cons.injEq] at hsplit1
                  obtain ⟨hd, hrest⟩ := hsplit1
                  subst hd
                  rw [hstep] at hfeas1
                  exact hearlier pre0 d1 post1 c1 hrest
                    (by simpa using hlen) hfeas1

/-- C5: in the search of a driver for one ride (the loop over the drivers of
`optimizeDriverScheduling`, on any schedules and module variables), where a
driver is feasible when the feasibility check returns `true` at its turn and
its cost is the `totalCost` that `calculateRideCost` then returns from the
driver's start location: if the search ends without an error, then for every
feasible driver a driver is chosen and its cost is at most the cost of that
feasible driver; and the chosen driver is one of the drivers, is feasible, has
`bestCost` equal to its own cost, and every feasible driver before it in the
order of `drivers` costs strictly more, so that among the cheapest the first
one is chosen. -/
theorem cheapest_feasible_driver_chosen (env : Env) (sched : Schedules) (ride : Ride)
    (drivers : List Driver) (g g1 : Globals) (best : Option BestChoice)
    (h : findBestDriver env sched ride drivers none g = (.ok best, g1)) :
    (∀ pre d post c, drivers = pre ++ d :: post →
      FeasibleAt env sched ride d (findBestDriver env sched ride pre none g).2 c →
      ∃ b, best = some b ∧ b.bestCost ≤ c) ∧
    (∀ b, best = some b →
      ∃ pre post, drivers = pre ++ b.bestDriver :: post ∧
        FeasibleAt env sched ride b.bestDriver
          (findBestDriver env sched ride pre none g).2 b.bestCost ∧
        b.bestStartLocation = startLocationOf sched b.bestDriver ∧
        ∀ pre1 d1 post1 c1, drivers = pre1 ++ d1 :: post1 → pre1.length < pre.length →
          FeasibleAt env sched ride d1 (findBestDriver env sched ride pre1 none g).2 c1 →
          b.bestCost < c1) := by
  obtain ⟨_, hB, hC⟩ := findBestDriver_spec env sched ride drivers none g g1 best h
  refine ⟨hB, fun b hb => ?_⟩
  rcases hC b hb with h0 | ⟨pre, post, hsplit, hfeas, hloc, _, hearlier⟩
  · cases h0
  · exact ⟨pre, post, hsplit, hfeas, hloc, hearlier⟩

/-- Witness of `cheapest_feasible_driver_chosen`: two feasible drivers that
cost 42 and 37.5.  The driver that costs 37.5 is chosen in either order of the
drivers, and the theorem, applied to the order with the dearer driver first,
bounds the chosen cost by the 42 of that driver. -/
theorem cheapest_feasible_driver_chosen_witness :
    findBestDriver envQuarter (fun _ => []) rideShort [driverDear, driverCheap] none
        freshGlobals = (.ok (some cheapChoice), searchedGlobals) ∧
    findBestDriver envQuarter (fun _ => []) rideShort [driverCheap, driverDear] none
        freshGlobals = (.ok (some cheapChoice), searchedGlobals) ∧
    FeasibleAt envQuarter (fun _ => []) rideShort driverDear freshGlobals 42 ∧
    ∃ b, some cheapChoice = some b ∧ b.bestCost ≤ 42 :=
  have hfeas : FeasibleAt envQuarter (fun _ => []) rideShort driverDear freshGlobals 42 :=
    ⟨freshGlobals,
      { distanceCache :=
          [(((0, 0), (1, 1)), { distance := 15, duration := 1 / 4 }),
           (((1, 1), (2, 2)), { distance := 15, duration := 1 / 4 })],
        APICALLS := 2, unAssignedRides := [], fetchCalls := 2 },
      { fuelCost := 39 / 2, laborCost := 45 / 2, totalCost := 42 },
      by decide!, by decide!, rfl⟩
  ⟨by decide!, by decide!, hfeas,
    (cheapest_feasible_driver_chosen envQuarter (fun _ => []) rideShort
      [driverDear, driverCheap] freshGlobals searchedGlobals (some cheapChoice)
      (by decide!)).1 [] driverDear [driverCheap] 42 rfl hfeas⟩

/-! ### Two runs in succession -/

theorem assignRide_same (ride : Ride) (best : Option BestChoice) (st : SchedulerState)
    (g g1 : Globals) (h : g.Same g1) :
    (assignRide ride best st g).1 = (assignRide ride best st g1).1 ∧
      (assignRide ride best st g).2.Same (assignRide ride best st g1).2 := by
  cases best with
  | none => exact ⟨rfl, h⟩
  | some b => exact ⟨rfl, h⟩

/-- The loop over the rides reads only the cache and the request counter. -/
theorem scheduleRides_same (env : Env) (drivers : List Driver) (rides : List Ride)
    (st : SchedulerState) (g g1 : Globals) (h : g.Same g1) :
    (scheduleRides env drivers rides st g).thrown =
        (scheduleRides env drivers rides st g1).thrown ∧
      (scheduleRides env drivers rides st g).state =
        (scheduleRides env drivers rides st g1).state ∧
      (scheduleRides env drivers rides st g).globals.Same
        (scheduleRides env drivers rides st g1).globals := by
  induction rides generalizing st g g1 with
  | nil => exact ⟨rfl, rfl, h⟩
  | cons ride rest ih =>
    have hf := findBestDriver_same env st.driverSchedules ride drivers none g g1 h
    rcases hx : findBestDriver env st.driverSchedules ride drivers none g with ⟨r, gx⟩
    rcases hy : findBestDriver env st.driverSchedules ride drivers none g1 with ⟨r1, gy⟩
    rw [hx, hy] at hf
    obtain ⟨hr, hs⟩ := hf
    dsimp only at hr hs
    subst hr
    cases r with
    | error e =>
      rw [scheduleRides_cons_error _ _ _ _ _ _ _ _ hx,
        scheduleRides_cons_error _ _ _ _ _ _ _ _ hy]
      exact ⟨rfl, rfl, hs⟩
    | ok best =>
      rw [scheduleRides_cons_ok _ _ _ _ _ _ _ _ hx, scheduleRides_cons_ok _ _ _ _ _ _ _ _ hy]
      have ha := assignRide_same ride best st gx gy hs
      rw [ha.1]
      exact ih _ _ _ ha.2

/-- C10: when a run of `optimizeDriverScheduling` makes no request to the
routing service (the cache holds an entry for every segment the run looks up,
so `APICALLS` is after the run what it was before), the run leaves the cache
unchanged, and a second run on the same inputs, started from the module
variables that the first run left, returns the same result (the same
`assignments` and `totalCost`, or the same error) and leaves the cache
unchanged as well. -/
theorem warm_cache_run_repeats (env : Env) (drivers : List Driver) (rides : List Ride)
    (g : Globals)
    (hwarm : (optimizeDriverScheduling env drivers rides g).2.APICALLS = g.APICALLS) :
    (optimizeDriverScheduling env drivers rides
        (optimizeDriverScheduling env drivers rides g).2).1 =
      (optimizeDriverScheduling env drivers rides g).1 ∧
    (optimizeDriverScheduling env drivers rides g).2.distanceCache = g.distanceCache ∧
    (optimizeDriverScheduling env drivers rides
        (optimizeDriverScheduling env drivers rides g).2).2.distanceCache =
      g.distanceCache := by
  have hsnd : ∀ g0 : Globals, (optimizeDriverScheduling env drivers rides g0).2 =
      (runScheduler env drivers rides g0).globals := by
    intro g0
    unfold optimizeDriverScheduling
    dsimp only
    split <;> rfl
  have hfst : ∀ g0 g1 : Globals,
      (runScheduler env drivers rides g0).thrown = (runScheduler env drivers rides g1).thrown →
      (runScheduler env drivers rides g0).state = (runScheduler env drivers rides g1).state →
      (optimizeDriverScheduling env drivers rides g0).1 =
        (optimizeDriverScheduling env drivers rides g1).1 := by
    intro g0 g1 ht hs
    unfold optimizeDriverScheduling
    dsimp only
    rw [ht, hs]
    split <;> rfl
  rw [hsnd g] at hwarm
  have hgrow : g.Grows (runScheduler env drivers rides g).globals :=
    scheduleRides_grows env drivers _ _ g
  have hcache := hgrow.cache hwarm
  have hsame : (runScheduler env drivers rides g).globals.Same g := ⟨hcache, hwarm⟩
  have hrun := scheduleRides_same env drivers (sortRidesChronologically rides)
    { assignments := [], totalCost := 0, driverSchedules := initSchedules drivers }
    _ _ hsame
  refine ⟨?_, ?_, ?_⟩
  · rw [hsnd g]
    exact hfst _ _ hrun.1 hrun.2.1
  · rw [hsnd g]; exact hcache
  · rw [hsnd, hsnd g]
    exact hrun.2.2.1.trans hcache

/-- Witness of `warm_cache_run_repeats`: the module variables that a first run
on the same inputs left. -/
theorem warm_cache_run_repeats_witness :
    (optimizeDriverScheduling envUp [driverOne] [rideMorning] warmGlobals).2.APICALLS =
      warmGlobals.APICALLS ∧
    (optimizeDriverScheduling envUp [driverOne] [rideMorning] warmGlobals).1 =
      .ok { assignments := [{ driverId := "driver1", rideIds := [] }], totalCost := 57 } ∧
    (optimizeDriverScheduling envUp [driverOne] [rideMorning]
        (optimizeDriverScheduling envUp [driverOne] [rideMorning] warmGlobals).2).1 =
      (optimizeDriverScheduling envUp [driverOne] [rideMorning] warmGlobals).1 ∧
    (optimizeDriverScheduling envUp [driverOne] [rideMorning] warmGlobals).2.distanceCache =
      warmGlobals.distanceCache ∧
    (optimizeDriverScheduling envUp [driverOne] [rideMorning]
        (optimizeDriverScheduling envUp [driverOne] [rideMorning] warmGlobals).2).2.distanceCache =
      warmGlobals.distanceCache :=
  ⟨by decide!, by decide!,
    warm_cache_run_repeats envUp [driverOne] [rideMorning] warmGlobals (by decide!)⟩

/-- A ride for which the search finds no driver, without a lookup, is recorded
as unassigned by a run that does not throw. -/
theorem scheduleRides_records_unassigned (env : Env) (drivers : List Driver) (ride : Ride)
    (hfind : ∀ (sched : Schedules) (g : Globals),
      findBestDriver env sched ride drivers none g = (.ok none, g))
    (rides : List Ride) (st : SchedulerState) (g : Globals) (hmem : ride ∈ rides)
    (hrun : (scheduleRides env drivers rides st g).thrown = none) :
    ride._id ∈ (scheduleRides env drivers rides st g).globals.unAssignedRides := by
  induction rides generalizing st g with
  | nil => cases hmem
  | cons r rest ih =>
    rcases hf : findBestDriver env st.driverSchedules r drivers none g with ⟨res, g1⟩
    cases res with
    | error e =>
      rw [scheduleRides_cons_error _ _ _ _ _ _ _ _ hf] at hrun
      cases hrun
    | ok best =>
      rw [scheduleRides_cons_ok _ _ _ _ _ _ _ _ hf] at hrun ⊢
      rcases List.mem_cons.1 hmem with h | h
      · subst h
        rw [hfind] at hf
        simp only [Prod.mk.injEq, Except.ok.injEq] at hf
        obtain ⟨hb, hg⟩ := hf
        subst hb
        exact (scheduleRides_grows env drivers rest _ _).unassigned _
          (by simp [assignRide])
      · exact ih _ _ h hrun

/-- C8: when every driver has fewer seats than the ride needs, the search for a
driver for the ride finds none and leaves the module variables untouched, the
ghost counter of the invocations of `fetchDistanceDuration` included (no cache
lookup, no request); the ride's turn of the loop does nothing but add the
ride's `_id` to the unassigned list; and in a run that does not throw the
`_id` is on the final unassigned list. -/
theorem ride_too_large_unassigned (env : Env) (drivers : List Driver) (ride : Ride)
    (h : ∀ d ∈ drivers, d.numberOfSeats < ride.numberOfSeats) :
    (∀ (sched : Schedules) (g : Globals),
      findBestDriver env sched ride drivers none g = (.ok none, g)) ∧
    (∀ (rest : List Ride) (st : SchedulerState) (g : Globals),
      scheduleRides env drivers (ride :: rest) st g =
        scheduleRides env drivers rest st
          { g with unAssignedRides := g.unAssignedRides ++ [ride._id] }) ∧
    (∀ (rides : List Ride) (g : Globals), ride ∈ rides →
      (runScheduler env drivers rides g).thrown = none →
      ride._id ∈ (runScheduler env drivers rides g).globals.unAssignedRides) := by
  have hfind : ∀ (sched : Schedules) (g : Globals),
      findBestDriver env sched ride drivers none g = (.ok none, g) :=
    fun sched g => findBestDriver_of_seats_lt env sched ride drivers none g h
  refine ⟨hfind, fun rest st g => ?_, fun rides g hmem hrun => ?_⟩
  · rw [scheduleRides_cons_ok _ _ _ _ _ _ _ _ (hfind st.driverSchedules g)]
    rfl
  · unfold runScheduler at hrun ⊢
    exact scheduleRides_records_unassigned env drivers ride hfind _ _ g
      ((List.mem_insertionSort _).2 hmem) hrun

/-- Witness of `ride_too_large_unassigned`: a driver with four seats and a ride
that needs five. -/
theorem ride_too_large_unassigned_witness :
    (∀ d ∈ [driverOne], d.numberOfSeats < rideOfFive.numberOfSeats) ∧
    optimizeDriverScheduling envUp [driverOne] [rideOfFive] freshGlobals =
      (.ok { assignments := [], totalCost := 0 },
        { freshGlobals with unAssignedRides := ["ride5"] }) ∧
    "ride5" ∈ (runScheduler envUp [driverOne] [rideOfFive] freshGlobals).globals.unAssignedRides :=
  ⟨by decide!, by decide!,
    (ride_too_large_unassigned envUp [driverOne] rideOfFive (by decide!)).2.2
      [rideOfFive] freshGlobals (List.mem_singleton.2 rfl) (by decide!)⟩

/-- A driver that has a record in the availability table but no window on the
date of the ride fails the feasibility check without a lookup. -/
theorem canAssignRideToDriver_of_no_window (env : Env) (driver : Driver) (ride : Ride)
    (prev : Option Ride) (loc : Coords) (g : Globals)
    (h : ∃ record,
      driversAvilability.find? (fun a => a.driverId == driver.driverId) = some record ∧
      ∀ w ∈ record.availability, w.date ≠ ride.date) :
    canAssignRideToDriver env driver ride prev loc g = (.ok false, g) := by
  obtain ⟨record, hrec, hw⟩ := h
  rcases canAssignRideToDriver_cases env driver ride prev loc g with
    ⟨_, hx⟩ | ⟨_, hr, _⟩ | ⟨_, _, _, _, hx⟩ | ⟨rec, w, _, hr, hwin, _⟩
  · exact hx
  · rw [hrec] at hr; cases hr
  · exact hx
  · rw [hrec] at hr
    simp only [Option.some.injEq] at hr
    subst hr
    have hfit := List.find?_some hwin
    have hmem := List.mem_of_find?_eq_some hwin
    simp only [windowFits, Bool.and_eq_true, beq_iff_eq] at hfit
    exact absurd hfit.1.1 (hw w hmem)

/-- The part of C9 that the code keeps: when every driver has a record in
`driversAvilability` and none of them has a window on the date of the ride, the
search for a driver finds none without any lookup, the ride's turn only adds
its `_id` to the unassigned list, and a run that does not throw ends with the
`_id` on that list. -/
theorem no_window_on_date_unassigned (env : Env) (drivers : List Driver) (ride : Ride)
    (h : ∀ d ∈ drivers, ∃ record,
      driversAvilability.find? (fun a => a.driverId == d.driverId) = some record ∧
      ∀ w ∈ record.availability, w.date ≠ ride.date) :
    (∀ (sched : Schedules) (g : Globals),
      findBestDriver env sched ride drivers none g = (.ok none, g)) ∧
    (∀ (rest : List Ride) (st : SchedulerState) (g : Globals),
      scheduleRides env drivers (ride :: rest) st g =
        scheduleRides env drivers rest st
          { g with unAssignedRides := g.unAssignedRides ++ [ride._id] }) ∧
    (∀ (rides : List Ride) (g : Globals), ride ∈ rides →
      (runScheduler env drivers rides g).thrown = none →
      ride._id ∈ (runScheduler env drivers rides g).globals.unAssignedRides) := by
  have hfind : ∀ (sched : Schedules) (g : Globals),
      findBestDriver env sched ride drivers none g = (.ok none, g) := by
    intro sched g
    generalize (none : Option BestChoice) = best
    induction drivers with
    | nil => rfl
    | cons driver rest ih =>
      rw [findBestDriver_cons_false _ _ _ _ _ _ _ _
        (canAssignRideToDriver_of_no_window env driver ride _ _ g
          (h driver (List.mem_cons_self _ _)))]
      exact ih (fun d hd => h d (List.mem_cons_of_mem _ hd))
  refine ⟨hfind, fun rest st g => ?_, fun rides g hmem hrun => ?_⟩
  · rw [scheduleRides_cons_ok _ _ _ _ _ _ _ _ (hfind st.driverSchedules g)]
    rfl
  · unfold runScheduler at hrun ⊢
    exact scheduleRides_records_unassigned env drivers ride hfind _ _ g
      ((List.mem_insertionSort _).2 hmem) hrun

/-- C7 as stated fails: on a cache that holds both keys of a segment with
different entries, the two directions of the lookup return different entries. -/
theorem fetch_two_directions_differ :
    (cacheBothKeys.has ((0, 0), (1, 1)) = true ∨ cacheBothKeys.has ((1, 1), (0, 0)) = true) ∧
    (fetchDistanceDuration envUp (0, 0) (1, 1)
        { freshGlobals with distanceCache := cacheBothKeys }).1 ≠
      (fetchDistanceDuration envUp (1, 1) (0, 0)
        { freshGlobals with distanceCache := cacheBothKeys }).1 := by
  constructor <;> decide!

/-- C7, amended: when the cache holds an entry under the key for (A,B) or under
the key for (B,A), and does not hold two different entries under the two keys,
`fetchDistanceDuration(A,B)` and `fetchDistanceDuration(B,A)` return the same
entry. -/
theorem fetch_two_directions_agree (env : Env) (g : Globals) (a b : Coords)
    (hhit : g.distanceCache.has (a, b) = true ∨ g.distanceCache.has (b, a) = true)
    (hsame : ∀ e1 e2, g.distanceCache.get (a, b) = some e1 →
      g.distanceCache.get (b, a) = some e2 → e1 = e2) :
    ∃ e, (fetchDistanceDuration env a b g).1 = some e ∧
      (fetchDistanceDuration env b a g).1 = some e := by
  cases h1 : g.distanceCache.get (a, b) with
  | some e1 =>
    refine ⟨e1, ?_, ?_⟩
    · rw [fetchDistanceDuration_hit env a b g e1 (by simp [Cache.segment, h1, Option.orElse])]
    · cases h2 : g.distanceCache.get (b, a) with
      | some e2 =>
        have := hsame e1 e2 h1 h2
        rw [fetchDistanceDuration_hit env b a g e2 (by simp [Cache.segment, h2, Option.orElse])]
        simp [this]
      | none =>
        rw [fetchDistanceDuration_hit env b a g e1
          (by simp [Cache.segment, h1, h2, Option.orElse])]
  | none =>
    have hb : g.distanceCache.has (b, a) = true := by
      rcases hhit with h | h
      · rw [(Cache.has_eq_false_iff _ _).2 h1] at h; cases h
      · exact h
    obtain ⟨e2, h2⟩ := (Cache.has_eq_true_iff _ _).1 hb
    refine ⟨e2, ?_, ?_⟩
    · rw [fetchDistanceDuration_hit env a b g e2
        (by simp [Cache.segment, h1, h2, Option.orElse])]
    · rw [fetchDistanceDuration_hit env b a g e2 (by simp [Cache.segment, h2, Option.orElse])]

/-- A cache that is new holds no segment under both of its keys. -/
theorem Cache.oneSided_nil : Cache.OneSided [] := by
  intro a b _ h
  exact absurd h.1 (by simp [Cache.has])

theorem Cache.has_append_singleton (c : Cache) (k k0 : Key) (v : Entry) :
    Cache.has (c ++ [(k0, v)]) k = (c.has k || decide (k = k0)) := by
  cases h : c.get k with
  | some e =>
    rw [(Cache.has_eq_true_iff _ _).2 ⟨e, h⟩,
      (Cache.has_eq_true_iff _ _).2 ⟨e, Cache.get_append_of_some c _ k e h⟩]
    rfl
  | none =>
    rw [(Cache.has_eq_false_iff _ _).2 h]
    unfold Cache.has
    have := Cache.get_append_of_none c [(k0, v)] k h
    unfold Cache.get at this
    rw [this]
    have h2 := Cache.get_singleton k k0 v
    unfold Cache.get at h2
    rw [h2]
    by_cases hk : k = k0 <;> simp [hk]

/-- A lookup keeps the cache one-sided: it stores a key only when both keys of
the segment are missing. -/
theorem fetchDistanceDuration_oneSided (env : Env) (a b : Coords) (g : Globals)
    (h : g.distanceCache.OneSided) :
    (fetchDistanceDuration env a b g).2.distanceCache.OneSided := by
  rcases fetchDistanceDuration_cases env a b g with ⟨e, _, h1⟩ | ⟨_, _, h1⟩ | ⟨route, hs, _, h1⟩
  · rw [h1]; exact h
  · rw [h1]; exact h
  · rw [h1]
    dsimp only
    have hm := (Cache.segment_eq_none_iff _ _ _).1 hs
    simp only [Bool.or_eq_false_iff] at hm
    obtain ⟨hab, hba⟩ := hm
    intro x y hxy hboth
    rw [Cache.has_append_singleton, Cache.has_append_singleton] at hboth
    simp only [Bool.or_eq_true, decide_eq_true_eq, Prod.mk.injEq] at hboth
    obtain ⟨hA, hB⟩ := hboth
    rcases hA with hA | ⟨hx, hy⟩
    · rcases hB with hB | ⟨hy, hx⟩
      · exact h x y hxy ⟨hA, hB⟩
      · subst hx; subst hy
        rw [hba] at hA; cases hA
    · subst hx; subst hy
      rcases hB with hB | ⟨hy, hx⟩
      · rw [hba] at hB; cases hB
      · exact hxy hx

/-- A one-sided cache does not hold two different entries under the two keys of
a segment. -/
theorem Cache.OneSided.same_entry {c : Cache} (h : c.OneSided) (a b : Coords) (e1 e2 : Entry)
    (h1 : c.get (a, b) = some e1) (h2 : c.get (b, a) = some e2) : e1 = e2 := by
  by_cases hab : a = b
  · subst hab
    rw [h1] at h2
    exact Option.some.inj h2
  · exact absurd ⟨(Cache.has_eq_true_iff _ _).2 ⟨e1, h1⟩, (Cache.has_eq_true_iff _ _).2 ⟨e2, h2⟩⟩
      (h a b hab)

/-- Witness of `fetch_two_directions_agree`: a cache that holds one key of the
segment. -/
theorem fetch_two_directions_agree_witness :
    ∃ e, (fetchDistanceDuration envUp (0, 0) (1, 1)
        { freshGlobals with distanceCache := [(((1, 1), (0, 0)), ⟨2, 2⟩)] }).1 = some e ∧
      (fetchDistanceDuration envUp (1, 1) (0, 0)
        { freshGlobals with distanceCache := [(((1, 1), (0, 0)), ⟨2, 2⟩)] }).1 = some e :=
  fetch_two_directions_agree envUp
    { freshGlobals with distanceCache := [(((1, 1), (0, 0)), ⟨2, 2⟩)] } (0, 0) (1, 1)
    (by decide!)
    (fun e1 _ h1 _ =>
      absurd (h1.symm.trans (show Cache.get [(((1, 1), (0, 0)), ⟨2, 2⟩)] ((0, 0), (1, 1)) = none
        by decide!)) (by simp))

/-! ### The lookup, case by case -/

/-- C12: when the cache holds an entry under the key for (A,B) or under the key
for (B,A), `fetchDistanceDuration(A,B)` returns an entry stored under one of the
two keys, makes no request (`APICALLS` is unchanged) and leaves the cache
unchanged. -/
theorem cache_hit_makes_no_request (env : Env) (g : Globals) (a b : Coords)
    (hhit : g.distanceCache.has (a, b) = true ∨ g.distanceCache.has (b, a) = true) :
    ∃ e, (fetchDistanceDuration env a b g).1 = some e ∧
      (g.distanceCache.get (a, b) = some e ∨ g.distanceCache.get (b, a) = some e) ∧
      (fetchDistanceDuration env a b g).2.APICALLS = g.APICALLS ∧
      (fetchDistanceDuration env a b g).2.distanceCache = g.distanceCache := by
  cases hs : g.distanceCache.segment a b with
  | none =>
    have hm := (Cache.segment_eq_none_iff _ _ _).1 hs
    simp only [Bool.or_eq_false_iff] at hm
    rcases hhit with h | h
    · rw [hm.1] at h; cases h
    · rw [hm.2] at h; cases h
  | some e =>
    refine ⟨e, ?_, ?_, ?_, ?_⟩
    · rw [fetchDistanceDuration_hit env a b g e hs]
    · unfold Cache.segment at hs
      cases h1 : g.distanceCache.get (a, b) with
      | some e1 =>
        rw [h1] at hs
        simp only [Option.orElse] at hs
        exact Or.inl hs
      | none =>
        rw [h1] at hs
        simp only [Option.orElse] at hs
        exact Or.inr hs
    · rw [fetchDistanceDuration_hit env a b g e hs]
    · rw [fetchDistanceDuration_hit env a b g e hs]

/-- Witness of `cache_hit_makes_no_request`: a lookup in the direction opposite
to the one the entry is stored under. -/
theorem cache_hit_makes_no_request_witness :
    ∃ e, (fetchDistanceDuration envDown (1, 1) (0, 0) warmGlobals).1 = some e ∧
      (warmGlobals.distanceCache.get ((1, 1), (0, 0)) = some e ∨
        warmGlobals.distanceCache.get ((0, 0), (1, 1)) = some e) ∧
      (fetchDistanceDuration envDown (1, 1) (0, 0) warmGlobals).2.APICALLS =
        warmGlobals.APICALLS ∧
      (fetchDistanceDuration envDown (1, 1) (0, 0) warmGlobals).2.distanceCache =
        warmGlobals.distanceCache :=
  cache_hit_makes_no_request envDown warmGlobals (1, 1) (0, 0) (Or.inr (by decide!))

/-- C13: when the cache holds an entry under neither key of the segment and the
response to the request is not `ok`, `fetchDistanceDuration(A,B)` returns `null`
to its caller, the cache after the call is the cache before it, and the one
request is counted. -/
theorem failed_request_leaves_cache (env : Env) (g : Globals) (a b : Coords)
    (hmiss : g.distanceCache.has (a, b) = false ∧ g.distanceCache.has (b, a) = false)
    (hfail : env.fetch g.APICALLS a b = none) :
    (fetchDistanceDuration env a b g).1 = none ∧
      (fetchDistanceDuration env a b g).2.distanceCache = g.distanceCache ∧
      (fetchDistanceDuration env a b g).2.APICALLS = g.APICALLS + 1 := by
  have hs : g.distanceCache.segment a b = none :=
    (Cache.segment_eq_none_iff _ _ _).2 (by simp [hmiss.1, hmiss.2])
  rw [fetchDistanceDuration_miss_fail env a b g hs hfail]
  exact ⟨rfl, rfl, rfl⟩

/-- Witness of `failed_request_leaves_cache`: a segment that the cache does not
hold and a routing service that fails. -/
theorem failed_request_leaves_cache_witness :
    (fetchDistanceDuration envDown (5, 5) (6, 6) warmGlobals).1 = none ∧
      (fetchDistanceDuration envDown (5, 5) (6, 6) warmGlobals).2.distanceCache =
        warmGlobals.distanceCache ∧
      (fetchDistanceDuration envDown (5, 5) (6, 6) warmGlobals).2.APICALLS =
        warmGlobals.APICALLS + 1 :=
  failed_request_leaves_cache envDown warmGlobals (5, 5) (6, 6)
    ⟨by decide!, by decide!⟩ rfl

/-- C19: when the cache holds an entry under neither key of the segment and the
request succeeds with a first route of `m` metres and `s` seconds,
`fetchDistanceDuration(A,B)` makes one request (`APICALLS` goes up by one),
returns the entry of `m / 1000` and `s / 3600`, and afterwards the cache holds
that entry under the key for (A,B), so that a lookup of the segment in either
direction finds it, while every key that was in the cache before still has the
value it had. -/
theorem successful_request_is_stored (env : Env) (g : Globals) (a b : Coords) (route : Route)
    (hmiss : g.distanceCache.has (a, b) = false ∧ g.distanceCache.has (b, a) = false)
    (hok : env.fetch g.APICALLS a b = some route) :
    (fetchDistanceDuration env a b g).1 =
        some { distance := route.distance / 1000, duration := route.duration / 3600 } ∧
      (fetchDistanceDuration env a b g).2.APICALLS = g.APICALLS + 1 ∧
      (fetchDistanceDuration env a b g).2.distanceCache.get (a, b) =
        some { distance := route.distance / 1000, duration := route.duration / 3600 } ∧
      (fetchDistanceDuration env a b g).2.distanceCache.segment a b =
        some { distance := route.distance / 1000, duration := route.duration / 3600 } ∧
      (fetchDistanceDuration env a b g).2.distanceCache.segment b a =
        some { distance := route.distance / 1000, duration := route.duration / 3600 } ∧
      ∀ k e, g.distanceCache.get k = some e →
        (fetchDistanceDuration env a b g).2.distanceCache.get k = some e := by
  have hs : g.distanceCache.segment a b = none :=
    (Cache.segment_eq_none_iff _ _ _).2 (by simp [hmiss.1, hmiss.2])
  have hget : Cache.get (g.distanceCache ++
      [((a, b), { distance := route.distance / 1000, duration := route.duration / 3600 })])
      (a, b) = some { distance := route.distance / 1000, duration := route.duration / 3600 } := by
    rw [Cache.get_append_of_none _ _ _ ((Cache.has_eq_false_iff _ _).1 hmiss.1),
      Cache.get_singleton]
    simp
  rw [fetchDistanceDuration_miss_ok env a b g route hs hok]
  refine ⟨rfl, rfl, hget, Cache.segment_append_self _ a b _ hs, ?_,
    fun k e hk => Cache.get_append_of_some _ _ k e hk⟩
  show Cache.segment _ b a = _
  unfold Cache.segment
  cases hba : Cache.get (g.distanceCache ++
      [((a, b), { distance := route.distance / 1000, duration := route.duration / 3600 })])
      (b, a) with
  | none => simpa [Option.orElse] using hget
  | some e1 =>
    rw [Cache.get_append_of_none _ _ _ ((Cache.has_eq_false_iff _ _).1 hmiss.2),
      Cache.get_singleton] at hba
    split at hba
    · next hk =>
      simp only [Option.some.injEq] at hba
      subst hba
      simp [Option.orElse]
    · cases hba

/-- Witness of `successful_request_is_stored`: a segment that the cache does not
hold and a routing service that answers with 12000 m and 1800 s. -/
theorem successful_request_is_stored_witness :
    (fetchDistanceDuration envUp (5, 5) (6, 6) warmGlobals).1 =
      some { distance := 12000 / 1000, duration := 1800 / 3600 } ∧
    (fetchDistanceDuration envUp (5, 5) (6, 6) warmGlobals).2.APICALLS =
      warmGlobals.APICALLS + 1 :=
  have h := successful_request_is_stored envUp warmGlobals (5, 5) (6, 6)
    { distance := 12000, duration := 1800 } ⟨by decide!, by decide!⟩ rfl
  ⟨h.1, h.2.1⟩

/-! ### The cost of a ride -/

/-- C14: when the lookup from the start location to the start point of the ride
returns `d1` and the lookup from the start point to the end point of the ride
returns `d2`, `calculateRideCost` returns
`fuelCost = (d1.distance + d2.distance) * driver.fuelCost`,
`laborCost = ((d1.duration * 60 + (parseTimeToMinutes(ride.endTime) -
parseTimeToMinutes(ride.startTime))) / 60) * 30` and
`totalCost = fuelCost + laborCost`; the duration of `d2` is not used. -/
theorem ride_cost_formula (env : Env) (driver : Driver) (ride : Ride) (startLocation : Coords)
    (g g1 g2 : Globals) (d1 d2 : Entry)
    (h1 : fetchDistanceDuration env startLocation ride.startPoint_coords g = (some d1, g1))
    (h2 : fetchDistanceDuration env ride.startPoint_coords ride.endPoint_coords g1 =
      (some d2, g2)) :
    calculateRideCost env driver ride startLocation g =
      (.ok { fuelCost := (d1.distance + d2.distance) * driver.fuelCost,
             laborCost := ((d1.duration * 60 +
               (parseTimeToMinutes ride.endTime - parseTimeToMinutes ride.startTime)) / 60) * 30,
             totalCost := (d1.distance + d2.distance) * driver.fuelCost +
               ((d1.duration * 60 +
                 (parseTimeToMinutes ride.endTime - parseTimeToMinutes ride.startTime)) / 60) *
                 30 }, g2) := by
  unfold calculateRideCost
  rw [h1]
  dsimp only
  rw [h2]
  rfl

/-- Witness of `ride_cost_formula`: the ride of one hour, reached in half an
hour over 12 km and itself 12 km long, with a driver at 0.5 per km. -/
theorem ride_cost_formula_witness :
    calculateRideCost envUp driverOne rideMorning (0, 0) freshGlobals =
      (.ok { fuelCost := ((12 : ℚ) + 12) * driverOne.fuelCost,
             laborCost := (((1 / 2 : ℚ) * 60 +
               (parseTimeToMinutes rideMorning.endTime -
                 parseTimeToMinutes rideMorning.startTime)) / 60) * 30,
             totalCost := ((12 : ℚ) + 12) * driverOne.fuelCost +
               (((1 / 2 : ℚ) * 60 +
                 (parseTimeToMinutes rideMorning.endTime -
                   parseTimeToMinutes rideMorning.startTime)) / 60) * 30 },
        warmGlobals) :=
  ride_cost_formula envUp driverOne rideMorning (0, 0) freshGlobals
    { distanceCache := [(((0, 0), (1, 1)), { distance := 12, duration := 1 / 2 })],
      APICALLS := 1, unAssignedRides := [], fetchCalls := 1 }
    warmGlobals { distance := 12, duration := 1 / 2 } { distance := 12, duration := 1 / 2 }
    (by decide!) (by decide!)

/-! ### The reachability check, case by case -/

/-- C16: `canReachRideOnTime` returns `true` without a lookup when there is no
previous ride, and when the previous ride is of another date; for a previous
ride of the same date it returns `false` without a lookup (the module variables,
the ghost counter of lookups among them, are untouched) when (i) `nextStart >
prevEnd` or (ii) `calculateTravelTime(calculateDistance(prev.endPoint_coords,
next.startPoint_coords)) + prevEnd <= nextStart` fails; and when (i) and (ii)
hold and the lookup of the segment returns `d`, it returns `true` exactly when
(iii) `prevEnd + 60 * d.duration + 10 <= nextStart`. -/
theorem reach_check_decides (env : Env) (next : Ride) (loc : Coords) (g : Globals) :
    canReachRideOnTime env none next loc g = (.ok true, g) ∧
    ∀ prev : Ride,
      (prev.date ≠ next.date →
        canReachRideOnTime env (some prev) next loc g = (.ok true, g)) ∧
      (prev.date = next.date →
        ¬ (parseTimeToMinutes next.startTime > parseTimeToMinutes prev.endTime ∧
          calculateTravelTime
              (env.calculateDistance prev.endPoint_coords next.startPoint_coords) 50 +
            parseTimeToMinutes prev.endTime ≤ parseTimeToMinutes next.startTime) →
        canReachRideOnTime env (some prev) next loc g = (.ok false, g)) ∧
      (prev.date = next.date →
        parseTimeToMinutes next.startTime > parseTimeToMinutes prev.endTime →
        calculateTravelTime
            (env.calculateDistance prev.endPoint_coords next.startPoint_coords) 50 +
          parseTimeToMinutes prev.endTime ≤ parseTimeToMinutes next.startTime →
        ∀ d g1, fetchDistanceDuration env prev.endPoint_coords next.startPoint_coords g =
            (some d, g1) →
          ∃ r, canReachRideOnTime env (some prev) next loc g = (.ok r, g1) ∧
            (r = true ↔ parseTimeToMinutes prev.endTime + 60 * d.duration + 10 ≤
              parseTimeToMinutes next.startTime)) := by
  refine ⟨rfl, fun prev => ⟨fun hd => ?_, fun hd hno => ?_, fun hd h1 h2 d g1 hf => ?_⟩⟩
  · unfold canReachRideOnTime
    dsimp only
    rw [if_pos hd]
  · unfold canReachRideOnTime
    dsimp only
    rw [if_neg (by simpa using hd)]
    by_cases h1 : parseTimeToMinutes next.startTime ≤ parseTimeToMinutes prev.endTime
    · rw [if_pos h1]
    · rw [if_neg h1]
      have h2 : calculateTravelTime
            (env.calculateDistance prev.endPoint_coords next.startPoint_coords) 50 +
          parseTimeToMinutes prev.endTime > parseTimeToMinutes next.startTime := by
        by_contra hcon
        exact hno ⟨lt_of_not_ge h1, not_lt.1 hcon⟩
      rw [if_pos h2]
  · unfold canReachRideOnTime
    dsimp only
    rw [if_neg (by simpa using hd), if_neg (not_le.2 h1), if_neg (not_lt.2 h2), hf]
    refine ⟨_, rfl, ?_⟩
    simp only [decide_eq_true_eq]
    constructor <;> intro h <;> linarith

/-- Witness of `reach_check_decides`: the ride at noon after the ride of the
morning, which starts where the other ends (haversine distance 0) and for which
the routing service answers half an hour. -/
theorem reach_check_decides_witness :
    ∃ r, canReachRideOnTime envUp (some rideMorning) rideNoon (2, 2) warmGlobals =
        (.ok r,
          { distanceCache := warmGlobals.distanceCache ++
              [(((2, 2), (2, 2)), { distance := 12, duration := 1 / 2 })],
            APICALLS := 3, unAssignedRides := [], fetchCalls := 3 }) ∧
      (r = true ↔ parseTimeToMinutes rideMorning.endTime + 60 * (1 / 2 : ℚ) + 10 ≤
        parseTimeToMinutes rideNoon.startTime) :=
  ((reach_check_decides envUp rideNoon (2, 2) warmGlobals).2 rideMorning).2.2
    (by decide!) (by decide!) (by decide!) { distance := 12, duration := 1 / 2 } _ (by decide!)

/-! ### The availability check -/

/-- C17 as stated fails: a ride that ends at 18:00, the end of the window of
`driver1` on its date, passes the check, although no window of the driver on
that date has `ride.endTime < window.end`. -/
theorem ride_ending_with_window_passes :
    canAssignRideToDriver envUp driverOne rideEvening none (0, 0) freshGlobals =
      (.ok true, freshGlobals) ∧
    ∀ record ∈ driversAvilability, record.driverId = driverOne.driverId →
      ∀ w ∈ record.availability,
        ¬ (w.date = rideEvening.date ∧
          parseTimeToMinutes w.start ≤ parseTimeToMinutes rideEvening.startTime ∧
          parseTimeToMinutes rideEvening.endTime < parseTimeToMinutes w.«end») := by
  constructor <;> decide!

/-- C17, amended: for a driver with enough seats that has a record in
`driversAvilability`, `canAssignRideToDriver` returns `true` only if the record
has a window whose date is the date of the ride and whose closed span contains
the span of the ride, `window.start <= ride.startTime` and
`ride.endTime <= window.end`; without such a window it returns `false`, and
makes no lookup. -/
theorem availability_window_is_closed (env : Env) (driver : Driver) (ride : Ride)
    (prev : Option Ride) (loc : Coords) (g : Globals) (record : DriverAvailability)
    (hseats : ride.numberOfSeats ≤ driver.numberOfSeats)
    (hrec : driversAvilability.find? (fun a => a.driverId == driver.driverId) = some record) :
    (∀ g1, canAssignRideToDriver env driver ride prev loc g = (.ok true, g1) →
      ∃ w ∈ record.availability, w.date = ride.date ∧
        parseTimeToMinutes w.start ≤ parseTimeToMinutes ride.startTime ∧
        parseTimeToMinutes ride.endTime ≤ parseTimeToMinutes w.«end») ∧
    ((¬ ∃ w ∈ record.availability, w.date = ride.date ∧
        parseTimeToMinutes w.start ≤ parseTimeToMinutes ride.startTime ∧
        parseTimeToMinutes ride.endTime ≤ parseTimeToMinutes w.«end») →
      canAssignRideToDriver env driver ride prev loc g = (.ok false, g)) := by
  have hfit : ∀ w : Window, windowFits ride w = true ↔
      (w.date = ride.date ∧
        parseTimeToMinutes w.start ≤ parseTimeToMinutes ride.startTime ∧
        parseTimeToMinutes ride.endTime ≤ parseTimeToMinutes w.«end») := by
    intro w
    simp only [windowFits, Bool.and_eq_true, beq_iff_eq, decide_eq_true_eq, ge_iff_le,
      and_assoc]
  constructor
  · intro g1 h
    obtain ⟨_, ⟨rec, w, hr, hw⟩, _⟩ := canAssignRideToDriver_true env driver ride prev loc g g1 h
    rw [hrec] at hr
    simp only [Option.some.injEq] at hr
    subst hr
    exact ⟨w, List.mem_of_find?_eq_some hw, (hfit w).1 (List.find?_some hw)⟩
  · intro hno
    rcases canAssignRideToDriver_cases env driver ride prev loc g with
      ⟨hs, _⟩ | ⟨_, hr, _⟩ | ⟨_, _, _, _, hx⟩ | ⟨rec, w, _, hr, hw, _⟩
    · exact absurd hs (Nat.not_lt.2 hseats)
    · rw [hrec] at hr; cases hr
    · exact hx
    · rw [hrec] at hr
      simp only [Option.some.injEq] at hr
      subst hr
      exact absurd ⟨w, List.mem_of_find?_eq_some hw, (hfit w).1 (List.find?_some hw)⟩ hno

/-- Witness of `availability_window_is_closed`: the ride that ends with the
window of `driver1`. -/
theorem availability_window_is_closed_witness :
    ∃ w ∈ [({ date := isoDate 2025 3 10, start := ⟨8, 0⟩, «end» := ⟨18, 0⟩ } : Window),
        { date := isoDate 2025 3 11, start := ⟨9, 0⟩, «end» := ⟨17, 0⟩ }],
      w.date = rideEvening.date ∧
        parseTimeToMinutes w.start ≤ parseTimeToMinutes rideEvening.startTime ∧
        parseTimeToMinutes rideEvening.endTime ≤ parseTimeToMinutes w.«end» :=
  (availability_window_is_closed envUp driverOne rideEvening none (0, 0) freshGlobals
    { driverId := "driver1",
      availability :=
        [ { date := isoDate 2025 3 10, start := ⟨8, 0⟩, «end» := ⟨18, 0⟩ },
          { date := isoDate 2025 3 11, start := ⟨9, 0⟩, «end» := ⟨17, 0⟩ } ] }
    (by decide!) (by decide!)).1 freshGlobals (by decide!)

/-! ### The entries of `assignments` -/

/-- C11, at a failing input: one driver that takes two rides, the second of
which starts where the first ends.  The entry of the driver lists the second
ride only, while the schedule of the driver holds both rides and `totalCost`
counts both. -/
theorem entry_lists_second_ride_only :
    (optimizeDriverScheduling envUp [driverOne] [rideMorning, rideNoon] freshGlobals).1 =
      .ok { assignments := [{ driverId := "driver1", rideIds := ["ride2"] }],
            totalCost := 114 } ∧
    finalSchedules envUp [driverOne] [rideMorning, rideNoon] freshGlobals "driver1" =
      [rideMorning, rideNoon] := by
  constructor <;> decide!

/-! ### Sorting the rides -/

/-- C15: `sortRidesChronologically` returns a permutation of its input that is
ascending by date and then by start time, and in which the rides of any one
date and start time stand in the order they have in the input.  The function
sorts a copy, `[...rides]`; the input is a value of the model that nothing
changes. -/
theorem sort_is_stable_and_ascending (rides : List Ride) :
    (sortRidesChronologically rides).Perm rides ∧
    (sortRidesChronologically rides).Pairwise (fun a b =>
      a.date < b.date ∨
        (a.date = b.date ∧
          parseTimeToMinutes a.startTime ≤ parseTimeToMinutes b.startTime)) ∧
    ∀ (date : Date) (start : ℚ),
      (sortRidesChronologically rides).filter
          (fun r => decide (r.date = date ∧ parseTimeToMinutes r.startTime = start)) =
        rides.filter
          (fun r => decide (r.date = date ∧ parseTimeToMinutes r.startTime = start)) := by
  have hperm : (sortRidesChronologically rides).Perm rides := List.perm_insertionSort _ rides
  refine ⟨hperm, ?_, fun date start => ?_⟩
  · exact (sortRidesChronologically_sorted rides).imp
      (fun hab => (compareRides_le_zero_iff _ _).1 hab)
  · have hpair : (rides.filter
        (fun r => decide (r.date = date ∧ parseTimeToMinutes r.startTime = start))).Pairwise
        (fun a b => compareRides a b ≤ 0) := by
      refine List.Pairwise.imp_of_mem ?_
        (List.pairwise_of_forall (R := fun _ _ => True) (fun _ _ => trivial))
      intro a b ha hb _
      have ha1 := (List.mem_filter.1 ha).2
      have hb1 := (List.mem_filter.1 hb).2
      simp only [decide_eq_true_eq] at ha1 hb1
      exact (compareRides_le_zero_iff a b).2
        (Or.inr ⟨ha1.1.trans hb1.1.symm, le_of_eq (ha1.2.trans hb1.2.symm)⟩)
    have hsub := (List.sublist_insertionSort hpair (List.filter_sublist rides)).filter
      (fun r => decide (r.date = date ∧ parseTimeToMinutes r.startTime = start))
    rw [List.filter_filter] at hsub
    simp only [Bool.and_self] at hsub
    have hlen := (hperm.filter
      (fun r => decide (r.date = date ∧ parseTimeToMinutes r.startTime = start))).length_eq
    exact (hsub.eq_of_length hlen.symm).symm

/-- The entry that `findIndex` finds is the first one of the driver id, and the
push changes the ride ids of that entry only. -/
theorem pushRideId_of_findIdx (l : List Assignment) (driverId rideId : String) (index : Nat)
    (h : l.findIdx? (fun ass => ass.driverId == driverId) = some index) :
    ∃ l1 a l2, l = l1 ++ a :: l2 ∧ a.driverId = driverId ∧
      pushRideId l index rideId =
        l1 ++ { a with rideIds := a.rideIds ++ [rideId] } :: l2 := by
  induction l generalizing index with
  | nil => simp at h
  | cons x xs ih =>
    rw [List.findIdx?_cons] at h
    by_cases hx : (x.driverId == driverId) = true
    · rw [if_pos hx] at h
      simp only [Option.some.injEq] at h
      subst h
      exact ⟨[], x, xs, rfl, by simpa using hx, rfl⟩
    · rw [if_neg hx, List.findIdx?_succ] at h
      cases hj : xs.findIdx? (fun ass => ass.driverId == driverId) 0 with
      | none => rw [hj] at h; cases h
      | some j =>
        rw [hj] at h
        simp only [Option.map_some', Option.some.injEq] at h
        subst h
        obtain ⟨l1, a, l2, hl, ha, hp⟩ := ih j hj
        refine ⟨x :: l1, a, l2, by rw [hl]; rfl, ha, ?_⟩
        show x :: pushRideId xs j rideId = _
        rw [hp]
        rfl

theorem EntriesSkipFirst.init (drivers : List Driver) :
    EntriesSkipFirst
      { assignments := [], totalCost := 0, driverSchedules := initSchedules drivers } := by
  refine ⟨fun a ha => (by cases ha), List.nodup_nil, fun driverId => ?_⟩
  simp [initSchedules_eq]

/-- Giving a ride to a driver keeps `EntriesSkipFirst`. -/
theorem EntriesSkipFirst.assign (ride : Ride) (b : BestChoice) (st : SchedulerState)
    (g : Globals) (h : EntriesSkipFirst st) :
    EntriesSkipFirst (assignRide ride (some b) st g).1 := by
  obtain ⟨h1, h2, h3⟩ := h
  have hsched : ∀ driverId : String,
      (assignRide ride (some b) st g).1.driverSchedules driverId =
        if driverId = b.bestDriver.driverId then st.driverSchedules driverId ++ [ride]
        else st.driverSchedules driverId :=
    fun driverId => assignRide_schedules_some ride b st g driverId
  cases hidx : st.assignments.findIdx?
      (fun ass => ass.driverId == b.bestDriver.driverId) with
  | none =>
    have hass : (assignRide ride (some b) st g).1.assignments =
        st.assignments ++ [{ driverId := b.bestDriver.driverId, rideIds := [] }] := by
      simp only [assignRide, hidx]
    have hno : ∀ a ∈ st.assignments, a.driverId ≠ b.bestDriver.driverId := by
      intro a ha
      have := List.findIdx?_eq_none_iff.1 hidx a ha
      simpa using this
    have hempty : st.driverSchedules b.bestDriver.driverId = [] := by
      by_contra hne
      obtain ⟨a, ha, hid⟩ := (h3 _).2 hne
      exact hno a ha hid
    refine ⟨?_, ?_, ?_⟩
    · intro a ha
      rw [hass] at ha
      rcases List.mem_append.1 ha with ha | ha
      · rw [hsched, if_neg (hno a ha)]
        exact h1 a ha
      · simp only [List.mem_singleton] at ha
        subst ha
        rw [hsched, if_pos rfl, hempty]
        rfl
    · rw [hass, List.map_append]
      refine List.Nodup.append h2 (List.nodup_singleton _) ?_
      intro x hx hx2
      simp only [List.map_cons, List.map_nil, List.mem_singleton] at hx2
      obtain ⟨a, ha, hid⟩ := List.mem_map.1 hx
      exact hno a ha (hid.trans hx2)
    · intro driverId
      rw [hass, hsched]
      by_cases hd : driverId = b.bestDriver.driverId
      · rw [if_pos hd]
        constructor
        · intro _; simp
        · intro _
          exact ⟨_, List.mem_append_right _ (List.mem_singleton.2 rfl), hd.symm⟩
      · rw [if_neg hd]
        constructor
        · rintro ⟨a, ha, hid⟩
          rcases List.mem_append.1 ha with ha | ha
          · exact (h3 driverId).1 ⟨a, ha, hid⟩
          · simp only [List.mem_singleton] at ha
            subst ha
            exact absurd hid.symm hd
        · intro hne
          obtain ⟨a, ha, hid⟩ := (h3 driverId).2 hne
          exact ⟨a, List.mem_append_left _ ha, hid⟩
  | some index =>
    obtain ⟨l1, a0, l2, hl, ha0, hp⟩ :=
      pushRideId_of_findIdx st.assignments b.bestDriver.driverId ride._id index hidx
    have hass : (assignRide ride (some b) st g).1.assignments =
        l1 ++ { a0 with rideIds := a0.rideIds ++ [ride._id] } :: l2 := by
      simp only [assignRide, hidx]
      exact hp
    have hmem0 : a0 ∈ st.assignments := by rw [hl]; simp
    have hne0 : st.driverSchedules b.bestDriver.driverId ≠ [] :=
      (h3 _).1 ⟨a0, hmem0, ha0⟩
    rw [hl, List.map_append, List.map_cons] at h2
    have hother : ∀ a, a ∈ l1 ∨ a ∈ l2 → a.driverId ≠ b.bestDriver.driverId := by
      intro a ha hid
      have hnd := List.nodup_append.1 h2
      rcases ha with ha | ha
      · exact hnd.2.2 (List.mem_map.2 ⟨a, ha, rfl⟩)
          (List.mem_cons.2 (Or.inl (hid.trans ha0.symm)))
      · exact (List.nodup_cons.1 hnd.2.1).1
          (List.mem_map.2 ⟨a, ha, hid.trans ha0.symm⟩)
    refine ⟨?_, ?_, ?_⟩
    · intro a ha
      rw [hass] at ha
      rcases List.mem_append.1 ha with ha | ha
      · rw [hsched, if_neg (hother a (Or.inl ha))]
        exact h1 a (by rw [hl]; exact List.mem_append_left _ ha)
      · rcases List.mem_cons.1 ha with ha | ha
        · subst ha
          show a0.rideIds ++ [ride._id] = _
          rw [hsched, if_pos ha0, h1 a0 hmem0, ha0, List.tail_append_of_ne_nil hne0,
            List.map_append]
          rfl
        · rw [hsched, if_neg (hother a (Or.inr ha))]
          exact h1 a (by rw [hl]; exact List.mem_append_right _ (List.mem_cons_of_mem _ ha))
    · rw [hass, List.map_append, List.map_cons]
      exact h2
    · intro driverId
      rw [hass, hsched]
      have hiff : (∃ a ∈ l1 ++ { a0 with rideIds := a0.rideIds ++ [ride._id] } :: l2,
          a.driverId = driverId) ↔ ∃ a ∈ st.assignments, a.driverId = driverId := by
        rw [hl]
        constructor
        · rintro ⟨a, ha, hid⟩
          rcases List.mem_append.1 ha with ha | ha
          · exact ⟨a, List.mem_append_left _ ha, hid⟩
          · rcases List.mem_cons.1 ha with ha | ha
            · subst ha
              exact ⟨a0, by simp, hid⟩
            · exact ⟨a, List.mem_append_right _ (List.mem_cons_of_mem _ ha), hid⟩
        · rintro ⟨a, ha, hid⟩
          rcases List.mem_append.1 ha with ha | ha
          · exact ⟨a, List.mem_append_left _ ha, hid⟩
          · rcases List.mem_cons.1 ha with ha | ha
            · subst ha
              exact ⟨{ a with rideIds := a.rideIds ++ [ride._id] }, by simp, hid⟩
            · exact ⟨a, List.mem_append_right _ (List.mem_cons_of_mem _ ha), hid⟩
      rw [hiff]
      by_cases hd : driverId = b.bestDriver.driverId
      · rw [if_pos hd]
        constructor
        · intro _; simp
        · intro _
          exact ⟨a0, hmem0, ha0.trans hd.symm⟩
      · rw [if_neg hd]
        exact h3 driverId

/-- Induction over the loop over the rides, for properties of the unassigned
list: a turn that throws leaves the unassigned list as it was. -/
theorem scheduleRides_induction_unassigned (env : Env) (drivers : List Driver)
    (P : List Ride → SchedulerState → Globals → Prop)
    (Q : SchedulerState → Globals → Prop)
    (hstep : ∀ ride rest st g g1 best, P (ride :: rest) st g →
      findBestDriver env st.driverSchedules ride drivers none g = (.ok best, g1) →
      P rest (assignRide ride best st g1).1 (assignRide ride best st g1).2)
    (hthrow : ∀ ride rest st g g1, P (ride :: rest) st g →
      g1.unAssignedRides = g.unAssignedRides → Q st g1)
    (hend : ∀ st g, P [] st g → Q st g)
    (rides : List Ride) (st : SchedulerState) (g : Globals) (h : P rides st g) :
    Q (scheduleRides env drivers rides st g).state
      (scheduleRides env drivers rides st g).globals := by
  induction rides generalizing st g with
  | nil => exact hend st g h
  | cons ride rest ih =>
    have hu := findBestDriver_unassigned env st.driverSchedules ride drivers none g
    rcases hf : findBestDriver env st.driverSchedules ride drivers none g with ⟨r, g1⟩
    rw [hf] at hu
    cases r with
    | error e =>
      rw [scheduleRides_cons_error _ _ _ _ _ _ _ _ hf]
      exact hthrow ride rest st g g1 h hu
    | ok best =>
      rw [scheduleRides_cons_ok _ _ _ _ _ _ _ _ hf]
      exact ih _ _ (hstep ride rest st g g1 best h hf)

theorem IdsApart.weaken {ride : Ride} {rest : List Ride} {sched : Schedules}
    {unassigned : List String} (h : IdsApart (ride :: rest) sched unassigned) :
    IdsApart rest sched unassigned :=
  ⟨fun d x hx hm => h.1 d x hx (List.mem_cons_of_mem _ hm),
    fun u hu hm => h.2.1 u hu (List.mem_cons_of_mem _ hm), h.2.2.1, h.2.2.2.1, h.2.2.2.2⟩

/-- A ride put on the unassigned list keeps `IdsApart`. -/
theorem IdsApart.unassign {ride : Ride} {rest : List Ride} {sched : Schedules}
    {unassigned : List String} (h : IdsApart (ride :: rest) sched unassigned)
    (hnd : ((ride :: rest).map (fun r => r._id)).Nodup) :
    IdsApart rest sched (unassigned ++ [ride._id]) := by
  obtain ⟨h1, h2, h3, h4, h5⟩ := h
  have hfresh : ride._id ∉ rest.map (fun r => r._id) := (List.nodup_cons.1 hnd).1
  refine ⟨fun d x hx hm => h1 d x hx (List.mem_cons_of_mem _ hm), ?_, h3, h4, ?_⟩
  · intro u hu hm
    rcases List.mem_append.1 hu with hu | hu
    · exact h2 u hu (List.mem_cons_of_mem _ hm)
    · simp only [List.mem_singleton] at hu
      subst hu
      exact hfresh hm
  · intro d x hx hm
    rcases List.mem_append.1 hm with hm | hm
    · exact h5 d x hx hm
    · simp only [List.mem_singleton] at hm
      exact h1 d x hx (by rw [hm]; exact List.mem_cons_self _ _)

/-- A ride put at the end of a schedule keeps `IdsApart`. -/
theorem IdsApart.schedule_ride {ride : Ride} {rest : List Ride} {sched : Schedules}
    {unassigned : List String} (h : IdsApart (ride :: rest) sched unassigned)
    (hnd : ((ride :: rest).map (fun r => r._id)).Nodup) (driverId : String) :
    IdsApart rest
      (fun k => if k = driverId then sched k ++ [ride] else sched k) unassigned := by
  obtain ⟨h1, h2, h3, h4, h5⟩ := h
  have hfresh : ride._id ∉ rest.map (fun r => r._id) := (List.nodup_cons.1 hnd).1
  have hnew : ∀ d, ∀ x ∈ sched d, x._id ≠ ride._id := by
    intro d x hx he
    exact h1 d x hx (by rw [he]; exact List.mem_cons_self _ _)
  have hmem : ∀ k x, x ∈ (if k = driverId then sched k ++ [ride] else sched k) →
      x ∈ sched k ∨ (k = driverId ∧ x = ride) := by
    intro k x hx
    split at hx
    · next hk =>
      rcases List.mem_append.1 hx with hx | hx
      · exact Or.inl hx
      · exact Or.inr ⟨hk, List.mem_singleton.1 hx⟩
    · exact Or.inl hx
  refine ⟨?_, fun u hu hm => h2 u hu (List.mem_cons_of_mem _ hm), ?_, ?_, ?_⟩
  · intro d x hx hm
    rcases hmem d x hx with hx1 | ⟨_, hx1⟩
    · exact h1 d x hx1 (List.mem_cons_of_mem _ hm)
    · rw [hx1] at hm; exact hfresh hm
  · intro d
    dsimp only
    split
    · rw [List.map_append]
      refine List.Nodup.append (h3 d) (List.nodup_singleton _) ?_
      intro i hi hi2
      simp only [List.map_cons, List.map_nil, List.mem_singleton] at hi2
      obtain ⟨x, hx, hid⟩ := List.mem_map.1 hi
      exact hnew d x hx (hid.trans hi2)
    · exact h3 d
  · intro d1 d2 hne x hx y hy
    rcases hmem d1 x hx with hx1 | ⟨hk1, hx1⟩
    · rcases hmem d2 y hy with hy1 | ⟨_, hy1⟩
      · exact h4 d1 d2 hne x hx1 y hy1
      · rw [hy1]; exact hnew d1 x hx1
    · rcases hmem d2 y hy with hy1 | ⟨hk2, _⟩
      · rw [hx1]; exact fun he => hnew d2 y hy1 he.symm
      · exact absurd (hk1.trans hk2.symm) hne
  · intro d x hx hm
    rcases hmem d x hx with hx1 | ⟨_, hx1⟩
    · exact h5 d x hx1 hm
    · rw [hx1] at hm
      exact h2 _ hm (List.mem_cons_self _ _)

/-- C20: where `optimizeDriverScheduling` ends, each entry of `assignments` has
as `rideIds` the `_id` list of the schedule of its driver id with the first
ride of the schedule left out, in order; no two entries have the same driver
id, and a driver id has an entry exactly when its schedule is not empty.  So
the first ride given to a driver is on the schedule, where it is the previous
ride of the next check and its cost is counted, and is not listed: when the
rides have pairwise distinct `_id`, none of them on the unassigned list at the
start, the `_id` of the first ride of a schedule is in no `rideIds` and not on
the unassigned list. -/
theorem entry_lists_schedule_without_first (env : Env) (drivers : List Driver)
    (rides : List Ride) (g : Globals) :
    (∀ a ∈ (runScheduler env drivers rides g).state.assignments,
      a.rideIds =
        ((finalSchedules env drivers rides g a.driverId).tail).map (fun r => r._id)) ∧
    ((runScheduler env drivers rides g).state.assignments.map (fun a => a.driverId)).Nodup ∧
    (∀ driverId : String,
      (∃ a ∈ (runScheduler env drivers rides g).state.assignments, a.driverId = driverId) ↔
        finalSchedules env drivers rides g driverId ≠ []) ∧
    ((rides.map (fun r => r._id)).Nodup → (∀ r ∈ rides, r._id ∉ g.unAssignedRides) →
      ∀ (driverId : String) (first : Ride) (later : List Ride),
        finalSchedules env drivers rides g driverId = first :: later →
        (∀ a ∈ (runScheduler env drivers rides g).state.assignments,
          first._id ∉ a.rideIds) ∧
        first._id ∉ (runScheduler env drivers rides g).globals.unAssignedRides) := by
  have hE : EntriesSkipFirst (runScheduler env drivers rides g).state := by
    unfold runScheduler
    refine scheduleRides_induction env drivers (fun _ st _ => EntriesSkipFirst st)
      (fun st _ => EntriesSkipFirst st) ?_ ?_ ?_ _ _ g (EntriesSkipFirst.init drivers)
    · intro ride rest st g0 g1 best h _
      cases best with
      | none => exact h
      | some b => exact h.assign ride b st g1
    · intro ride rest st g0 g1 h _
      exact h
    · intro st g0 h
      exact h
  refine ⟨hE.1, hE.2.1, hE.2.2, fun hnd hun driverId first later hsched => ?_⟩
  have hJ : IdsApart [] (runScheduler env drivers rides g).state.driverSchedules
      (runScheduler env drivers rides g).globals.unAssignedRides := by
    unfold runScheduler
    refine scheduleRides_induction_unassigned env drivers
      (fun todo st g0 => IdsApart todo st.driverSchedules g0.unAssignedRides ∧
        (todo.map (fun r => r._id)).Nodup)
      (fun st g0 => IdsApart [] st.driverSchedules g0.unAssignedRides) ?_ ?_ ?_ _ _ g ?_
    · intro ride rest st g0 g1 best h hf
      obtain ⟨hI, hn⟩ := h
      have hu := findBestDriver_unassigned env st.driverSchedules ride drivers none g0
      rw [hf] at hu
      dsimp only at hu
      refine ⟨?_, (List.nodup_cons.1 hn).2⟩
      cases best with
      | none =>
        show IdsApart rest st.driverSchedules (g1.unAssignedRides ++ [ride._id])
        rw [hu]
        exact hI.unassign hn
      | some b =>
        have hs : (assignRide ride (some b) st g1).1.driverSchedules =
            fun k => if k = b.bestDriver.driverId then st.driverSchedules k ++ [ride]
              else st.driverSchedules k :=
          funext (fun k => assignRide_schedules_some ride b st g1 k)
        rw [hs]
        show IdsApart rest _ g1.unAssignedRides
        rw [hu]
        exact hI.schedule_ride hn b.bestDriver.driverId
    · intro ride rest st g0 g1 h hu
      rw [hu]
      exact ⟨fun _ _ _ hm => (by cases hm), fun _ _ hm => (by cases hm),
        h.1.2.2.1, h.1.2.2.2.1, h.1.2.2.2.2⟩
    · intro st g0 h
      exact h.1
    · refine ⟨⟨?_, ?_, ?_, ?_, ?_⟩, ?_⟩
      · intro d x hx
        simp only [initSchedules_eq] at hx
        cases hx
      · intro u hu hm
        obtain ⟨r, hr, hid⟩ := List.mem_map.1 hm
        exact hun r ((sortRidesChronologically_mem rides r).1 hr) (by rw [hid]; exact hu)
      · intro d
        simp only [initSchedules_eq]
        exact List.nodup_nil
      · intro d1 d2 _ x hx
        simp only [initSchedules_eq] at hx
        cases hx
      · intro d x hx
        simp only [initSchedules_eq] at hx
        cases hx
      · exact ((List.perm_insertionSort _ rides).map _).nodup_iff.2 hnd
  obtain ⟨_, _, h3, h4, h5⟩ := hJ
  unfold finalSchedules at hsched
  have hfirst : first ∈ (runScheduler env drivers rides g).state.driverSchedules driverId := by
    rw [hsched]; exact List.mem_cons_self _ _
  refine ⟨fun a ha hmem => ?_, h5 driverId first hfirst⟩
  rw [hE.1 a ha] at hmem
  obtain ⟨y, hy, hid⟩ := List.mem_map.1 hmem
  have hy1 : y ∈ (runScheduler env drivers rides g).state.driverSchedules a.driverId :=
    List.mem_of_mem_tail hy
  by_cases hd : a.driverId = driverId
  · rw [hd, hsched] at hy
    have hn := h3 driverId
    rw [hsched] at hn
    simp only [List.map_cons, List.tail_cons] at hn hy
    exact (List.nodup_cons.1 hn).1 (List.mem_map.2 ⟨y, hy, hid⟩)
  · exact h4 a.driverId driverId hd y hy1 first hfirst hid

/-- Witness of `entry_lists_schedule_without_first`: the one driver takes both
rides; the entry lists the second, and the id of the first is in no list. -/
theorem entry_lists_schedule_without_first_witness :
    (runScheduler envUp [driverOne] [rideMorning, rideNoon] freshGlobals).state.assignments =
      [{ driverId := "driver1", rideIds := ["ride2"] }] ∧
    (∀ a ∈ (runScheduler envUp [driverOne] [rideMorning, rideNoon]
        freshGlobals).state.assignments, rideMorning._id ∉ a.rideIds) ∧
    rideMorning._id ∉
      (runScheduler envUp [driverOne] [rideMorning, rideNoon] freshGlobals).globals.unAssignedRides :=
  ⟨by decide!,
    (entry_lists_schedule_without_first envUp [driverOne] [rideMorning, rideNoon]
      freshGlobals).2.2.2 (by decide!) (by decide!) "driver1" rideMorning [rideNoon]
      (by decide!)⟩

/-! ### The total cost -/

theorem assignmentTrace_cons_error (env : Env) (drivers : List Driver) (ride : Ride)
    (rest : List Ride) (st : SchedulerState) (g g1 : Globals) (e : JsError)
    (h : findBestDriver env st.driverSchedules ride drivers none g = (.error e, g1)) :
    assignmentTrace env drivers (ride :: rest) st g = [] := by
  simp only [assignmentTrace, h]

theorem assignmentTrace_cons_none (env : Env) (drivers : List Driver) (ride : Ride)
    (rest : List Ride) (st : SchedulerState) (g g1 : Globals)
    (h : findBestDriver env st.driverSchedules ride drivers none g = (.ok none, g1)) :
    assignmentTrace env drivers (ride :: rest) st g =
      assignmentTrace env drivers rest (assignRide ride none st g1).1
        (assignRide ride none st g1).2 := by
  simp only [assignmentTrace, h]

theorem assignmentTrace_cons_some (env : Env) (drivers : List Driver) (ride : Ride)
    (rest : List Ride) (st : SchedulerState) (g g1 : Globals) (b : BestChoice)
    (h : findBestDriver env st.driverSchedules ride drivers none g = (.ok (some b), g1)) :
    assignmentTrace env drivers (ride :: rest) st g =
      { ride := ride, choice := b, schedules := st.driverSchedules, globals := g } ::
        assignmentTrace env drivers rest (assignRide ride (some b) st g1).1
          (assignRide ride (some b) st g1).2 := by
  simp only [assignmentTrace, h]

/-- The loop over the rides and its record, from any local variables: the total
cost grows by the costs of the record, each cost of the record is the cost of
the chosen driver at its turn, the schedules grow by the rides of the record,
and the schedules of an element of the record are those that the elements
before it have built. -/
theorem scheduleRides_trace (env : Env) (drivers : List Driver) (rides : List Ride)
    (st : SchedulerState) (g : Globals) :
    (scheduleRides env drivers rides st g).state.totalCost =
      st.totalCost +
        ((assignmentTrace env drivers rides st g).map (fun t => t.choice.bestCost)).sum ∧
    (∀ t ∈ assignmentTrace env drivers rides st g, t.ride ∈ rides ∧
      ∃ pre post, drivers = pre ++ t.choice.bestDriver :: post ∧
        FeasibleAt env t.schedules t.ride t.choice.bestDriver
          (findBestDriver env t.schedules t.ride pre none t.globals).2 t.choice.bestCost ∧
        t.choice.bestStartLocation = startLocationOf t.schedules t.choice.bestDriver) ∧
    (∀ driverId : String,
      (scheduleRides env drivers rides st g).state.driverSchedules driverId =
        st.driverSchedules driverId ++
          ((assignmentTrace env drivers rides st g).filter
            (fun t => decide (t.choice.bestDriver.driverId = driverId))).map
              (fun t => t.ride)) ∧
    (∀ (before : List Assigned) (t : Assigned) (after : List Assigned),
      assignmentTrace env drivers rides st g = before ++ t :: after →
      ∀ driverId : String, t.schedules driverId =
        st.driverSchedules driverId ++
          (before.filter (fun t => decide (t.choice.bestDriver.driverId = driverId))).map
            (fun t => t.ride)) := by
  induction rides generalizing st g with
  | nil =>
    refine ⟨by simp [scheduleRides, assignmentTrace], fun t ht => (by cases ht),
      fun driverId => by simp [scheduleRides, assignmentTrace], ?_⟩
    intro before t after h
    simp only [assignmentTrace] at h
    cases before <;> simp at h
  | cons ride rest ih =>
    rcases hf : findBestDriver env st.driverSchedules ride drivers none g with ⟨r, g1⟩
    cases r with
    | error e =>
      rw [scheduleRides_cons_error _ _ _ _ _ _ _ _ hf,
        assignmentTrace_cons_error _ _ _ _ _ _ _ _ hf]
      refine ⟨by simp, fun t ht => (by cases ht), fun driverId => by simp, ?_⟩
      intro before t after h
      cases before <;> simp at h
    | ok best =>
      rw [scheduleRides_cons_ok _ _ _ _ _ _ _ _ hf]
      obtain ⟨ih1, ih2, ih3, ih4⟩ := ih (assignRide ride best st g1).1
        (assignRide ride best st g1).2
      cases best with
      | none =>
        rw [assignmentTrace_cons_none _ _ _ _ _ _ _ hf]
        refine ⟨ih1, fun t ht => ?_, ih3, ih4⟩
        obtain ⟨hm, hrest⟩ := ih2 t ht
        exact ⟨List.mem_cons_of_mem _ hm, hrest⟩
      | some b =>
        rw [assignmentTrace_cons_some _ _ _ _ _ _ _ _ hf]
        have hsched : ∀ driverId : String,
            (assignRide ride (some b) st g1).1.driverSchedules driverId =
              if driverId = b.bestDriver.driverId then st.driverSchedules driverId ++ [ride]
              else st.driverSchedules driverId :=
          fun driverId => assignRide_schedules_some ride b st g1 driverId
        refine ⟨?_, ?_, ?_, ?_⟩
        · rw [ih1]
          simp only [List.map_cons, List.sum_cons]
          show st.totalCost + b.bestCost + _ = _
          ring
        · intro t ht
          rcases List.mem_cons.1 ht with ht | ht
          · subst ht
            refine ⟨List.mem_cons_self _ _, ?_⟩
            rcases (findBestDriver_spec env st.driverSchedules ride drivers none g g1
              (some b) hf).2.2 b rfl with h0 | ⟨pre, post, hsplit, hfeas, hloc, _, _⟩
            · cases h0
            · exact ⟨pre, post, hsplit, hfeas, hloc⟩
          · obtain ⟨hm, hrest⟩ := ih2 t ht
            exact ⟨List.mem_cons_of_mem _ hm, hrest⟩
        · intro driverId
          rw [ih3 driverId, hsched]
          by_cases hd : driverId = b.bestDriver.driverId
          · rw [if_pos hd, List.filter_cons_of_pos (by simpa using hd.symm)]
            simp
          · rw [if_neg hd, List.filter_cons_of_neg
              (by simpa using fun h : b.bestDriver.driverId = driverId => hd h.symm)]
        · intro before t after h driverId
          cases before with
          | nil =>
            simp only [List.nil_append, List.cons.injEq] at h
            rw [← h.1]
            simp
          | cons t0 before0 =>
            simp only [List.cons_append, List.cons.injEq] at h
            obtain ⟨ht0, hrest⟩ := h
            rw [ih4 before0 t after hrest driverId, hsched, ← ht0]
            by_cases hd : driverId = b.bestDriver.driverId
            · rw [if_pos hd, List.filter_cons_of_pos (by simpa using hd.symm)]
              simp
            · rw [if_neg hd, List.filter_cons_of_neg
                (by simpa using fun h : b.bestDriver.driverId = driverId => hd h.symm)]

/-- C18: the `totalCost` that `optimizeDriverScheduling` returns is the sum of
the costs of the record of its assignments, one for each ride that was given to
a driver and none for a ride that was not.  Each cost of the record is the
`totalCost` that `calculateRideCost` returned for the chosen driver at its turn
of the search, from the driver's start location at that moment (the end point
of the last ride of its schedule, or `city_coords` for an empty schedule); the
schedules at that moment are those built by the assignments before it, and the
final schedules hold the rides of the record. -/
theorem total_cost_is_sum_of_chosen_costs (env : Env) (drivers : List Driver)
    (rides : List Ride) (g : Globals) :
    (∀ result g1, optimizeDriverScheduling env drivers rides g = (.ok result, g1) →
      result.totalCost =
        ((assignmentsOfRun env drivers rides g).map (fun t => t.choice.bestCost)).sum) ∧
    (∀ t ∈ assignmentsOfRun env drivers rides g, t.ride ∈ rides ∧
      ∃ pre post, drivers = pre ++ t.choice.bestDriver :: post ∧
        FeasibleAt env t.schedules t.ride t.choice.bestDriver
          (findBestDriver env t.schedules t.ride pre none t.globals).2 t.choice.bestCost ∧
        t.choice.bestStartLocation = startLocationOf t.schedules t.choice.bestDriver) ∧
    (∀ driverId : String,
      finalSchedules env drivers rides g driverId =
        ((assignmentsOfRun env drivers rides g).filter
          (fun t => decide (t.choice.bestDriver.driverId = driverId))).map (fun t => t.ride)) ∧
    (∀ (before : List Assigned) (t : Assigned) (after : List Assigned),
      assignmentsOfRun env drivers rides g = before ++ t :: after →
      ∀ driverId : String, t.schedules driverId =
        (before.filter (fun t => decide (t.choice.bestDriver.driverId = driverId))).map
          (fun t => t.ride)) := by
  obtain ⟨h1, h2, h3, h4⟩ := scheduleRides_trace env drivers (sortRidesChronologically rides)
    { assignments := [], totalCost := 0, driverSchedules := initSchedules drivers } g
  refine ⟨?_, ?_, ?_, ?_⟩
  · intro result g1 hres
    unfold optimizeDriverScheduling at hres
    dsimp only at hres
    split at hres
    · cases hres
    · simp only [Prod.mk.injEq, Except.ok.injEq] at hres
      rw [← hres.1]
      show (runScheduler env drivers rides g).state.totalCost = _
      unfold runScheduler assignmentsOfRun
      rw [h1]
      simp
  · intro t ht
    obtain ⟨hm, hrest⟩ := h2 t ht
    exact ⟨(sortRidesChronologically_mem rides t.ride).1 hm, hrest⟩
  · intro driverId
    unfold finalSchedules runScheduler assignmentsOfRun
    rw [h3 driverId]
    simp [initSchedules_eq]
  · intro before t after h driverId
    rw [h4 before t after h driverId]
    simp [initSchedules_eq]

/-- Witness of `total_cost_is_sum_of_chosen_costs`: the run in which the one
driver takes both rides, at 57 each. -/
theorem total_cost_is_sum_of_chosen_costs_witness :
    optimizeDriverScheduling envUp [driverOne] [rideMorning, rideNoon] freshGlobals =
      (.ok { assignments := [{ driverId := "driver1", rideIds := ["ride2"] }],
             totalCost := 114 },
        (runScheduler envUp [driverOne] [rideMorning, rideNoon] freshGlobals).globals) ∧
    (114 : ℚ) =
      ((assignmentsOfRun envUp [driverOne] [rideMorning, rideNoon] freshGlobals).map
        (fun t => t.choice.bestCost)).sum :=
  ⟨by decide!,
    (total_cost_is_sum_of_chosen_costs envUp [driverOne] [rideMorning, rideNoon]
      freshGlobals).1
      ({ assignments := [{ driverId := "driver1", rideIds := ["ride2"] }],
         totalCost := 114 } : Result)
      (runScheduler envUp [driverOne] [rideMorning, rideNoon] freshGlobals).globals
      (by decide!)⟩

end DriverScheduling
